import Mathlib

/-!
Verification of the `ledger-rs` fixed-record ledger store.

The Rust source is shallowly embedded: a page (`SlottedPage::data`, a
`[u8; PAGE_SZ]` array) is a `List Nat` of byte values; multi-byte header
fields are little-endian `u32` values stored as four bytes, exactly as the
`PageHeader` / `LedgerHeader` accessors read and write them.  Machine
integers are modelled as `Nat` with explicit `% 2^32` where the Rust code
performs wrapping `u32` arithmetic or `as u32` casts (release semantics).
Rust panics (out-of-bounds slice indexing, `copy_from_slice` length
mismatch) are modelled as an explicit `panic` result.  Record types are
fixed-layout byte-copy schemas (`rkyv` `Portable` types), so `to_bytes` /
`access` are the identity on the record's `S` bytes and a record value is
modelled as its `S`-byte encoding.
-/

namespace LedgerRs

/-! # Definitions -/

/-- `2^32`, the modulus of Rust `u32` arithmetic. -/
def U32 : Nat := 4294967296

/-- `as u32` truncation / wrapping `u32` addition result. -/
def wrap32 (n : Nat) : Nat := n % U32

/-- Wrapping `u32` subtraction `a - b` (release-mode Rust semantics) for
`a, b < 2^32`. -/
def sub32 (a b : Nat) : Nat :=
  if b % U32 ≤ a % U32 then a % U32 - b % U32 else a % U32 + (U32 - b % U32)

/-- The four little-endian bytes of a `u32` value, as written by
`u32::to_le_bytes` (a larger `Nat` argument is truncated, matching an
`as u32` cast). -/
def toLE4 (n : Nat) : List Nat :=
  [n % 256, n / 256 % 256, n / 65536 % 256, n / 16777216 % 256]

/-- Decode four little-endian bytes into a `u32` value, as read by
`u32::from_le_bytes`. -/
def fromLE4 (bs : List Nat) : Nat :=
  match bs with
  | [b0, b1, b2, b3] => b0 + 256 * b1 + 65536 * b2 + 16777216 * b3
  | _ => 0

/-- Read `n` bytes starting at byte offset `i`: models `&data[i .. i+n]`
(once the range is known to be in bounds). -/
def rbytes (d : List Nat) (i n : Nat) : List Nat := (d.drop i).take n

/-- Overwrite the bytes starting at offset `i` with `bs`: models
`data[i .. i + bs.len()].copy_from_slice(&bs)` (once the range is known to
be in bounds). -/
def wbytes (d : List Nat) (i : Nat) (bs : List Nat) : List Nat :=
  d.take i ++ (bs ++ d.drop (i + bs.length))

/-! ## Error taxonomy (`src/utils.rs`) and computation results

`PRes` mirrors `Result<_, PageError>` extended with an explicit `panic`
outcome for Rust panics (out-of-bounds slice indexing and
`copy_from_slice` length mismatches). -/

inductive PageError where
  | Error
  | RkyvError
  | PageIdOutOfBounds
  | RowIdOutOfBounds
  | RowNotFound
  | NoSpace
  deriving DecidableEq, Repr

inductive PRes (α : Type) where
  | ok : α → PRes α
  | err : PageError → PRes α
  | panic : PRes α
  deriving DecidableEq, Repr

/-! ## Page header (`src/header.rs`, `PageHeader`)

`PageHeader` is `repr(C)`: `page_type: u8` at offset 0, `flags: u8` at 1,
2 pad bytes, then the `[u8; 4]` little-endian fields `slot_count` at 4,
`free_start` at 8, `free_end` at 12; 16 bytes total, stored in the first
16 bytes of the page.  Every bit pattern is a valid `PageHeader`, so the
checked `rkyv` accessors (`PageHeader::access`/`access_mut`) never fail
and the getters/setters are modelled as direct little-endian reads and
writes on the page bytes. -/

def PAGE_HEADER_SZ : Nat := 16

/-- `PageHeader::slot_count` read on the page bytes. -/
def slot_count (d : List Nat) : Nat := fromLE4 (rbytes d 4 4)

/-- `PageHeader::free_start` read on the page bytes. -/
def free_start (d : List Nat) : Nat := fromLE4 (rbytes d 8 4)

/-- `PageHeader::free_end` read on the page bytes. -/
def free_end (d : List Nat) : Nat := fromLE4 (rbytes d 12 4)

/-- `PageHeader::free_space`: `self.free_end() - self.free_start()`
(wrapping `u32` subtraction in release builds). -/
def free_space (d : List Nat) : Nat := sub32 (free_end d) (free_start d)

/-- `PageHeader::set_slot_count` on the page bytes. -/
def set_slot_count (d : List Nat) (v : Nat) : List Nat := wbytes d 4 (toLE4 v)

/-- `PageHeader::set_free_start` on the page bytes. -/
def set_free_start (d : List Nat) (v : Nat) : List Nat := wbytes d 8 (toLE4 v)

/-- `PageHeader::set_free_end` on the page bytes. -/
def set_free_end (d : List Nat) (v : Nat) : List Nat := wbytes d 12 (toLE4 v)

/-- The serialized bytes of `PageHeader::new(None, page_size)`:
`page_type = 0`, empty flag mask, zero padding, `slot_count = 0`,
`free_start = PAGE_HEADER_SZ`, `free_end = page_size` (the `u32` value of
the `PAGE_SZ as u32` cast; `toLE4` itself truncates to 32 bits). -/
def newHeaderBytes (page_size : Nat) : List Nat :=
  [0, 0, 0, 0] ++ (toLE4 0 ++ (toLE4 PAGE_HEADER_SZ ++ toLE4 page_size))

/-! ## Slotted page (`src/page.rs`) -/

/-- `page_sz::<T>()`: `PAGE_HEADER_SZ + size_of::<T>() * ROWS_PER_PAGE`
(compile-time constant; const evaluation rejects `u32` overflow, so no
wrapping is modelled). -/
def page_sz (S rows_per_page : Nat) : Nat := PAGE_HEADER_SZ + S * rows_per_page

/-- `SlottedPage::row_sz()`: `size_of::<T>() + 4`. -/
def row_sz (S : Nat) : Nat := S + 4

/-- `SlottedPage::max_rows_per_page()`:
`(PAGE_SZ as u32 - PAGE_HEADER_SZ) as usize / (size_of::<T>() + 4)`. -/
def max_rows_per_page (S PAGE_SZ : Nat) : Nat :=
  sub32 (wrap32 PAGE_SZ) PAGE_HEADER_SZ / (S + 4)

/-- The page bytes produced by `SlottedPage::new()`: a zero-filled
`PAGE_SZ` block whose first 16 bytes are a fresh `PageHeader`. -/
def newPageData (PAGE_SZ : Nat) : List Nat :=
  wbytes (List.replicate PAGE_SZ 0) 0 (newHeaderBytes PAGE_SZ)

/-- `SlottedPage::new()`.  Writing the 16 serialized header bytes into
`data[0..16]` panics when `PAGE_SZ < 16`. -/
def SlottedPage.new (PAGE_SZ : Nat) : PRes (List Nat) :=
  if PAGE_SZ < PAGE_HEADER_SZ then .panic
  else .ok (newPageData PAGE_SZ)

/-- `_get_slot_id(row_n)`: `PAGE_HEADER_SZ as usize + row_n * 4`. -/
def _get_slot_id (row_n : Nat) : Nat := PAGE_HEADER_SZ + row_n * 4

/-- `_offset(page_row_n, num_rows, data)`: bounds-check the row index and
the 4-byte slot-directory read, then return the stored cell offset.  The
source reads the slot entry with `u32::from_ne_bytes`; the file format and
the modelled host are little-endian, so this is `fromLE4`. -/
def _offset (page_row_n num_rows : Nat) (d : List Nat) : Option Nat :=
  if page_row_n ≥ num_rows then none
  else
    let slot_offset := _get_slot_id page_row_n
    if slot_offset + 4 > d.length then none
    else some (fromLE4 (rbytes d slot_offset 4))

/-- `SlottedPage::insert_row(&T)`.  `Self::ROW_SZ = size_of::<T>() = S`;
`object.to_bytes()` is the byte copy `v` of the fixed-layout record (the
schema codec is infallible), which `copy_from_slice` requires to be
exactly `cellEnd - aligned_start` bytes.  The header seal's reads happen
before its writes, and the two data writes follow the header writes, in
source order. -/
def insert_row (S : Nat) (d : List Nat) (v : List Nat) : PRes (List Nat × Nat) :=
  if d.length < PAGE_HEADER_SZ then .panic
  else if free_space d ≤ S then .err .NoSpace
  else
    let aligned_start := sub32 (free_end d) S
    if aligned_start < wrap32 (free_start d + 4) then .err .NoSpace
    else
      let sc := slot_count d
      let slot_id := _get_slot_id sc
      let d1 := set_free_start d (slot_id + 4)
      let d2 := set_free_end d1 aligned_start
      let d3 := set_slot_count d2 (sc + 1)
      if slot_id + 4 > d3.length then .panic
      else
        let d4 := wbytes d3 slot_id (toLE4 aligned_start)
        let cellEnd := wrap32 (aligned_start + S)
        if aligned_start > cellEnd ∨ cellEnd > d4.length ∨
            v.length ≠ cellEnd - aligned_start then .panic
        else .ok (wbytes d4 aligned_start v, sc)

/-- `SlottedPage::access_row(page_row_n)`.  On a located offset the source
returns `access::<T>(&self.data[off .. off + size_of::<T>()])`; for a
fixed-layout byte-copy schema validation always succeeds and the borrow is
the `S` cell bytes themselves. -/
def access_row (S : Nat) (d : List Nat) (page_row_n : Nat) : PRes (Option (List Nat)) :=
  if d.length < PAGE_HEADER_SZ then .panic
  else
    match _offset page_row_n (slot_count d) d with
    | none => .err .RowNotFound
    | some data_offset =>
      if data_offset + S > d.length then .panic
      else .ok (some (rbytes d data_offset S))

/-- `SlottedPage::set_row_deleted(page_row_n)`, parametrized by the
schema's `T::deleted_row`.  `copy_from_slice` panics unless the sentinel
is exactly `ROW_SZ = S` bytes. -/
def set_row_deleted (S : Nat) (deleted_row : Nat → List Nat) (d : List Nat)
    (page_row_n : Nat) : PRes (List Nat) :=
  if d.length < PAGE_HEADER_SZ then .panic
  else
    match _offset page_row_n (slot_count d) d with
    | none => .err .RowIdOutOfBounds
    | some data_offset =>
      if data_offset + S > d.length then .panic
      else if (deleted_row page_row_n).length ≠ S then .panic
      else .ok (wbytes d data_offset (deleted_row page_row_n))

/-- The `deleted_row` implementation generated by the `ledger-rs-macros`
schema derivation (`ledger-rs-macros/src/lib.rs`): it always returns the
empty slice `&[]`. -/
def schema_deleted_row : Nat → List Nat := fun _ => []

/-! ### Representation predicates for packed pages -/

/-- Offset of the cell of slot `j`: cells of size `S` grow backwards from
the end of the page. -/
def cellOff (S PAGE_SZ j : Nat) : Nat := PAGE_SZ - (j + 1) * S

/-- `d` is exactly the page obtained by inserting the records `ws` (in
order) into a fresh page: header fields, slot directory, and cells. -/
structure PageRep (S PAGE_SZ : Nat) (ws : List (List Nat)) (d : List Nat) : Prop where
  hlen : d.length = PAGE_SZ
  hsc : slot_count d = ws.length
  hfs : free_start d = PAGE_HEADER_SZ + 4 * ws.length
  hfe : free_end d = PAGE_SZ - ws.length * S
  hroom : PAGE_HEADER_SZ + ws.length * (S + 4) ≤ PAGE_SZ
  hslots : ∀ j, j < ws.length → rbytes d (_get_slot_id j) 4 = toLE4 (cellOff S PAGE_SZ j)
  hcells : ∀ j, j < ws.length → rbytes d (cellOff S PAGE_SZ j) S = ws.getD j []
  hwlen : ∀ w ∈ ws, w.length = S

/-- The header/slot-directory shape of a page holding `k` records; unlike
`PageRep` it says nothing about the cell contents, so it is preserved by
`set_row_deleted`. -/
structure PageShape (S Z k : Nat) (d : List Nat) : Prop where
  hlen : d.length = Z
  hsc : slot_count d = k
  hfs : free_start d = PAGE_HEADER_SZ + 4 * k
  hfe : free_end d = Z - k * S
  hroom : PAGE_HEADER_SZ + k * (S + 4) ≤ Z
  hslots : ∀ j, j < k → rbytes d (_get_slot_id j) 4 = toLE4 (cellOff S Z j)

/-- Page states reachable from `SlottedPage::new()` by `insert_row` and
`set_row_deleted` calls (with an arbitrary schema sentinel `dr`). -/
inductive PageReach (S Z : Nat) : List Nat → Prop where
  | init (d : List Nat) : SlottedPage.new Z = .ok d → PageReach S Z d
  | ins (d v d' : List Nat) (s : Nat) : PageReach S Z d →
      insert_row S d v = .ok (d', s) → PageReach S Z d'
  | del (d : List Nat) (dr : Nat → List Nat) (n : Nat) (d' : List Nat) : PageReach S Z d →
      set_row_deleted S dr d n = .ok d' → PageReach S Z d'

/-! ## Row-id arithmetic (`src/ledger.rs`, `RowQuery`) -/

/-- `RowQuery::to_row_id(page_id, row_n)`:
`page_id * max_rows_per_page() as u32 + row_n` in wrapping `u32`
arithmetic. -/
def RowQuery.to_row_id (S Z page_id row_n : Nat) : Nat :=
  wrap32 (wrap32 (page_id * wrap32 (max_rows_per_page S Z)) + row_n)

/-- `RowQuery::from_row_id(row_id)`: `u32` division and remainder by
`max_rows_per_page`; `u32` division by zero panics (`none`). -/
def RowQuery.from_row_id (S Z row_id : Nat) : Option (Nat × Nat) :=
  let max_rows := wrap32 (max_rows_per_page S Z)
  if max_rows = 0 then none
  else some (row_id / max_rows, row_id % max_rows)

/-! ## Ledger header (`src/header.rs`, `LedgerHeader`)

The name, description, flag and padding bytes play no role in any claim;
the three little-endian `u32` fields are modelled as the values they
store.  All accesses in the source go through the LE getters/setters (and
every bit pattern is a valid `LedgerHeader`), so this is the same
byte-accurate modelling as for `PageHeader`, with the LE round trip
applied once and for all. -/

structure LedgerHeader where
  num_pages : Nat
  rows_per_page : Nat
  page_cursor : Nat
  deriving DecidableEq, Repr

/-- `LedgerHeader::num_rows(rows_per_page)`:
`self.num_pages() * rows_per_page + self.page_cursor()` in wrapping `u32`
arithmetic — note: the source multiplies by `num_pages`, not
`num_pages - 1`, and adds `page_cursor`, not any page's `slot_count`. -/
def LedgerHeader.num_rows (h : LedgerHeader) (rows_per_page : Nat) : Nat :=
  wrap32 (wrap32 (h.num_pages * rows_per_page) + h.page_cursor)

/-- `LedgerHeader::inc_page_cursor` (wrapping `u32` add). -/
def LedgerHeader.inc_page_cursor (h : LedgerHeader) : LedgerHeader :=
  { h with page_cursor := wrap32 (h.page_cursor + 1) }

/-! ## Ledger store (`src/ledger.rs`, `DataLedgerStore`)

The store's state is the memory-mapped file: the ledger header followed by
`num_pages` pages of `PAGE_SZ` bytes.  Pages are disjoint fixed regions of
the mapping, modelled as a list of page-byte lists.  `LRes` is
`Result<_, DatastoreError>` with the post-call state attached (the Rust
methods mutate the mapping in place) plus an explicit `panic` outcome;
the fallible I/O steps of `allocate_new_page` (`File::set_len` and the
remap `MmapMut::map_mut`) are modelled by the two `Bool` parameters. -/

structure Ledger where
  header : LedgerHeader
  pages : List (List Nat)
  deriving DecidableEq, Repr

inductive DsError where
  | pageErr : PageError → DsError
  | ioErr : DsError
  deriving DecidableEq, Repr

inductive LRes (α : Type) where
  | ok : Ledger → α → LRes α
  | err : Ledger → DsError → LRes α
  | panic : LRes α
  deriving DecidableEq, Repr

/-- The new-file branch of `DataLedgerStore::open`: size the file for one
page, initialize the `LedgerHeader` with `num_pages = 1` (the fresh header
has `rows_per_page = 0` and `page_cursor = 0`), and write page 0 as a
fresh `SlottedPage` (whose construction panics when `PAGE_SZ < 16`). -/
def DataLedgerStore.openFresh (Z : Nat) : Option Ledger :=
  match SlottedPage.new Z with
  | .ok pg => some { header := { num_pages := 1, rows_per_page := 0, page_cursor := 0 },
                     pages := [pg] }
  | _ => none

/-- `DataLedgerStore::total_pages`. -/
def total_pages (l : Ledger) : Nat := l.header.num_pages

/-- `DataLedgerStore::access_page(page_id)`: bounds-check against
`num_pages`, then borrow the page bytes out of the mapping (slicing
beyond the mapping would panic; `rkyv` validation of a page always
succeeds). -/
def access_page (l : Ledger) (page_id : Nat) : PRes (List Nat) :=
  if page_id ≥ total_pages l then .err .PageIdOutOfBounds
  else match l.pages[page_id]? with
    | some pg => .ok pg
    | none => .panic

/-- The effect of `File::set_len` on the page area: truncate or zero-fill
to exactly `n` pages. -/
def resizePages (Z : Nat) (ps : List (List Nat)) (n : Nat) : List (List Nat) :=
  ps.take n ++ List.replicate (n - ps.length) (List.replicate Z 0)

/-- `DataLedgerStore::allocate_new_page`.  Source order: write
`num_pages + 1` into the mapped header, `set_len` (fallible), build the
fresh page, remap (fallible), copy the fresh page over the new last page,
return the old `num_pages`.  The caller is responsible for bumping
`page_cursor`. -/
def allocate_new_page (Z : Nat) (setLenOk mapOk : Bool) (l : Ledger) : LRes Nat :=
  let np := l.header.num_pages
  let l1 : Ledger := { l with header := { l.header with num_pages := wrap32 (np + 1) } }
  if !setLenOk then .err l1 .ioErr
  else
    let l2 : Ledger := { l1 with pages := resizePages Z l1.pages (np + 1) }
    match SlottedPage.new Z with
    | .ok pg =>
      if !mapOk then .err l2 .ioErr
      else .ok { l2 with pages := l2.pages.set np pg } np
    | _ => .panic

/-- `DataLedgerStore::insert(&T)`: try the cursor page; on `NoSpace`
allocate a new page, bump the cursor, and retry on the page the cursor now
names; all other errors are surfaced. -/
def DataLedgerStore.insert (S Z : Nat) (setLenOk mapOk : Bool) (l : Ledger)
    (v : List Nat) : LRes Nat :=
  let page_id := l.header.page_cursor
  if page_id ≥ total_pages l then .err l (.pageErr .PageIdOutOfBounds)
  else match l.pages[page_id]? with
    | none => .panic
    | some pg =>
      match insert_row S pg v with
      | .ok (pg', row_n) =>
          .ok { l with pages := l.pages.set page_id pg' }
            (RowQuery.to_row_id S Z page_id row_n)
      | .panic => .panic
      | .err .NoSpace =>
        match allocate_new_page Z setLenOk mapOk l with
        | .err l' e => .err l' e
        | .panic => .panic
        | .ok l' _ =>
          let l'' : Ledger := { l' with header := l'.header.inc_page_cursor }
          let next_page_id := l''.header.page_cursor
          if next_page_id ≥ total_pages l'' then .err l'' (.pageErr .PageIdOutOfBounds)
          else match l''.pages[next_page_id]? with
            | none => .panic
            | some pg2 =>
              match insert_row S pg2 v with
              | .ok (pg2', row_n) =>
                  .ok { l'' with pages := l''.pages.set next_page_id pg2' }
                    (RowQuery.to_row_id S Z next_page_id row_n)
              | .err e => .err l'' (.pageErr e)
              | .panic => .panic
      | .err e => .err l (.pageErr e)

/-- `DataLedgerStore::access_row(row_id)`: split the row id, access the
page, delegate to the page-level `access_row`. -/
def DataLedgerStore.access_row (S Z : Nat) (l : Ledger) (row_id : Nat) :
    PRes (Option (List Nat)) :=
  match RowQuery.from_row_id S Z row_id with
  | none => .panic
  | some (page_id, page_row_n) =>
    match access_page l page_id with
    | .err e => .err e
    | .panic => .panic
    | .ok pg => LedgerRs.access_row S pg page_row_n

/-- `DataLedgerStore::num_rows()`:
`(num_pages - 1) * max_rows_per_page() as u32 + last_page.slot_count()`
over the page at index `num_pages as usize - 1` (with `num_pages = 0`
that usize subtraction wraps to `2^64 - 1`, an out-of-bounds page). -/
def DataLedgerStore.num_rows (S Z : Nat) (l : Ledger) : PRes Nat :=
  let np := l.header.num_pages
  match access_page l (if np = 0 then 18446744073709551615 else np - 1) with
  | .err e => .err e
  | .panic => .panic
  | .ok pg => .ok (wrap32 (wrap32 (sub32 np 1 * wrap32 (max_rows_per_page S Z))
      + slot_count pg))

/-- `DataLedgerStore::access_row_mut(row_id)` followed by the caller
overwriting the sealed record's `S` bytes (via the schema's setters): the
only mutation the public API permits besides `insert`.  The locator is the
same as `access_row`'s. -/
def write_row (S Z : Nat) (l : Ledger) (row_id : Nat) (bs : List Nat) : LRes Unit :=
  match RowQuery.from_row_id S Z row_id with
  | none => .panic
  | some (page_id, page_row_n) =>
    if page_id ≥ total_pages l then .err l (.pageErr .PageIdOutOfBounds)
    else match l.pages[page_id]? with
      | none => .panic
      | some pg =>
        if pg.length < PAGE_HEADER_SZ then .panic
        else match _offset page_row_n (slot_count pg) pg with
          | none => .err l (.pageErr .RowNotFound)
          | some off =>
            if off + S > pg.length then .panic
            else if bs.length ≠ S then .panic
            else .ok { l with pages := l.pages.set page_id (wbytes pg off bs) } ()

/-- Iterated `insert` under normal I/O, collecting the returned row ids;
`none` as soon as one insert does not succeed. -/
def insertAll (S Z : Nat) (l : Ledger) : List (List Nat) → Option (Ledger × List Nat)
  | [] => some (l, [])
  | v :: vs =>
    match DataLedgerStore.insert S Z true true l v with
    | .ok l' rid =>
      match insertAll S Z l' vs with
      | some (l'', rids) => some (l'', rid :: rids)
      | none => none
    | _ => none


/-- The ledger-level inductive invariant: the header's `u32` page count
and page cursor track the number of mapped pages. -/
def LedgerInv (l : Ledger) : Prop :=
  l.header.num_pages = wrap32 l.pages.length ∧
  1 ≤ l.pages.length ∧
  l.header.page_cursor = wrap32 (l.pages.length - 1)

/-- `LedgerInv` holds of the state carried by a non-panic result. -/
def LResInv : LRes Nat → Prop
  | .ok l _ => LedgerInv l
  | .err l _ => LedgerInv l
  | .panic => True

/-- `LedgerInv` holds of the state carried by a non-panic `Unit` result. -/
def LResUnitInv : LRes Unit → Prop
  | .ok l _ => LedgerInv l
  | .err l _ => LedgerInv l
  | .panic => True

/-- Ledger states reachable from opening a fresh file by completed
public-API calls under normal I/O: `insert` (whether it returns `Ok` or a
surfaced error) and in-place record mutation through `access_row_mut`
(`write_row`).  `access_row`, `num_rows` and `sync_all` do not change the
mapping. -/
inductive LReach (S Z : Nat) : Ledger → Prop where
  | init (l : Ledger) : DataLedgerStore.openFresh Z = some l → LReach S Z l
  | ins_ok (l : Ledger) (v : List Nat) (l' : Ledger) (r : Nat) : LReach S Z l →
      DataLedgerStore.insert S Z true true l v = .ok l' r → LReach S Z l'
  | ins_err (l : Ledger) (v : List Nat) (l' : Ledger) (e : DsError) : LReach S Z l →
      DataLedgerStore.insert S Z true true l v = .err l' e → LReach S Z l'
  | wr (l : Ledger) (rid : Nat) (bs : List Nat) (l' : Ledger) : LReach S Z l →
      write_row S Z l rid bs = .ok l' () → LReach S Z l'

/-- The records that land on page `i` when the list `vs` is inserted into
a fresh ledger with fan-out `M`. -/
def chunk (M : Nat) (vs : List (List Nat)) (i : Nat) : List (List Nat) :=
  (vs.drop (i * M)).take M

/-- `l` is exactly the ledger obtained by inserting the records `vs` (in
order) into a freshly opened ledger: the header tracks the pages, and page
`i` is the packed page holding the `i`-th chunk of `vs`. -/
structure LedgerRep (S Z : Nat) (vs : List (List Nat)) (l : Ledger) : Prop where
  hnp : l.header.num_pages = l.pages.length
  hpc : l.header.page_cursor = l.pages.length - 1
  hpos : 1 ≤ l.pages.length
  hlo : (l.pages.length - 1) * max_rows_per_page S Z ≤ vs.length
  hhi : vs.length ≤ l.pages.length * max_rows_per_page S Z
  htail : vs.length = 0 ∨ (l.pages.length - 1) * max_rows_per_page S Z < vs.length
  hpages : ∀ i, (hi : i < l.pages.length) →
    PageRep S Z (chunk (max_rows_per_page S Z) vs i) (l.pages.get ⟨i, hi⟩)

/-- Iterated `insert_row` on one page, collecting the returned slots;
`none` as soon as one insert does not succeed. -/
def insertRowAll (S : Nat) (d : List Nat) : List (List Nat) → Option (List Nat × List Nat)
  | [] => some (d, [])
  | v :: vs =>
    match insert_row S d v with
    | .ok (d', s) =>
      match insertRowAll S d' vs with
      | some (d'', ss) => some (d'', s :: ss)
      | none => none
    | _ => none

/-! ## Concrete pages used by the counterexamples -/

/-- A hand-built corrupt page for `S = 2`, `PAGE_SZ = 22`: `slot_count =
1`, `free_start = free_end = 20`, but slot 0 stores offset `17`, which is
inside the page yet outside the cell region `[free_end, PAGE_SZ) =
[20, 22)`. -/
def corruptPage : List Nat :=
  [0, 0, 0, 0, 1, 0, 0, 0, 20, 0, 0, 0, 20, 0, 0, 0, 17, 0, 0, 0, 9, 9]

/-- The page holding the single record `[7, 9]` (for `S = 2`,
`PAGE_SZ = 22`). -/
def pageOneRow : List Nat :=
  match insert_row 2 (newPageData 22) [7, 9] with
  | .ok (d, _) => d
  | _ => []

/-! # Theorems -/

theorem wrap32_eq (n : Nat) (h : n < U32) : wrap32 n = n := Nat.mod_eq_of_lt h

theorem sub32_eq (a b : Nat) (hba : b ≤ a) (ha : a < U32) : sub32 a b = a - b := by
  unfold sub32 U32 at *
  split <;> omega

theorem sub32_lt (a b : Nat) : sub32 a b < U32 := by
  unfold sub32 U32
  split <;> omega

theorem toLE4_length (n : Nat) : (toLE4 n).length = 4 := rfl

theorem fromLE4_toLE4 (n : Nat) : fromLE4 (toLE4 n) = wrap32 n := by
  simp only [toLE4, fromLE4, wrap32, U32]
  omega

theorem fromLE4_toLE4_of_lt (n : Nat) (h : n < U32) : fromLE4 (toLE4 n) = n := by
  rw [fromLE4_toLE4, wrap32_eq n h]

theorem rbytes_length (d : List Nat) (i n : Nat) (h : i + n ≤ d.length) :
    (rbytes d i n).length = n := by
  simp [rbytes]
  omega

theorem wbytes_length (d : List Nat) (i : Nat) (bs : List Nat)
    (h : i + bs.length ≤ d.length) : (wbytes d i bs).length = d.length := by
  simp [wbytes]
  omega

theorem rbytes_wbytes_self (d : List Nat) (i : Nat) (bs : List Nat)
    (h : i + bs.length ≤ d.length) :
    rbytes (wbytes d i bs) i bs.length = bs := by
  unfold rbytes wbytes
  have hlen : (d.take i).length = i := by
    simp
    omega
  rw [List.drop_append_eq_append_drop]
  rw [hlen]
  simp only [Nat.sub_self, List.drop_zero, List.drop_length, List.nil_append]
  rw [List.take_append_eq_append_take]
  simp

theorem rbytes_wbytes_left (d : List Nat) (i : Nat) (bs : List Nat) (j n : Nat)
    (hd : j + n ≤ i) (hw : i ≤ d.length) :
    rbytes (wbytes d i bs) j n = rbytes d j n := by
  unfold rbytes wbytes
  have hlen : (d.take i).length = i := by simp; omega
  rw [List.drop_append_eq_append_drop, hlen]
  rw [List.take_append_eq_append_take]
  have h1 : (List.drop j (List.take i d)).length = i - j := by simp; omega
  rw [h1]
  have h2 : n - (i - j) = 0 := by omega
  rw [h2]
  simp only [List.take_zero, List.append_nil]
  rw [List.drop_take]
  rw [List.take_take]
  congr 1
  omega

theorem rbytes_wbytes_right (d : List Nat) (i : Nat) (bs : List Nat) (j n : Nat)
    (hd : i + bs.length ≤ j) (hw : i + bs.length ≤ d.length) :
    rbytes (wbytes d i bs) j n = rbytes d j n := by
  unfold rbytes wbytes
  have hlen : (d.take i).length = i := by simp; omega
  rw [List.drop_append_eq_append_drop, hlen]
  rw [List.drop_append_eq_append_drop]
  have h1 : (List.drop (j - i) bs).length = 0 := by simp; omega
  have h2 : List.drop (j - i) bs = [] := by
    rwa [List.length_eq_zero] at h1
  rw [h2]
  have h3 : List.drop j (List.take i d) = [] := by
    apply List.eq_nil_of_length_eq_zero
    simp
    omega
  rw [h3]
  simp only [List.nil_append]
  rw [List.drop_drop]
  congr 2
  omega

theorem rbytes_wbytes_self4 (d : List Nat) (i v : Nat) (h : i + 4 ≤ d.length) :
    rbytes (wbytes d i (toLE4 v)) i 4 = toLE4 v := by
  have h4 := rbytes_wbytes_self d i (toLE4 v) (by rw [toLE4_length]; omega)
  rwa [toLE4_length] at h4

theorem slot_count_set_slot_count (d : List Nat) (v : Nat) (h : 8 ≤ d.length) :
    slot_count (set_slot_count d v) = wrap32 v := by
  unfold slot_count set_slot_count
  rw [rbytes_wbytes_self4 d 4 v (by omega)]
  exact fromLE4_toLE4 v

theorem slot_count_set_free_start (d : List Nat) (v : Nat) (h : 8 ≤ d.length) :
    slot_count (set_free_start d v) = slot_count d := by
  unfold slot_count set_free_start
  rw [rbytes_wbytes_left d 8 (toLE4 v) 4 4 (by omega) (by omega)]

theorem slot_count_set_free_end (d : List Nat) (v : Nat) (h : 12 ≤ d.length) :
    slot_count (set_free_end d v) = slot_count d := by
  unfold slot_count set_free_end
  rw [rbytes_wbytes_left d 12 (toLE4 v) 4 4 (by omega) (by omega)]

theorem free_start_set_free_start (d : List Nat) (v : Nat) (h : 12 ≤ d.length) :
    free_start (set_free_start d v) = wrap32 v := by
  unfold free_start set_free_start
  rw [rbytes_wbytes_self4 d 8 v (by omega)]
  exact fromLE4_toLE4 v

theorem free_start_set_slot_count (d : List Nat) (v : Nat) (h : 8 ≤ d.length) :
    free_start (set_slot_count d v) = free_start d := by
  unfold free_start set_slot_count
  rw [rbytes_wbytes_right d 4 (toLE4 v) 8 4 (by rw [toLE4_length])
    (by rw [toLE4_length]; omega)]

theorem free_start_set_free_end (d : List Nat) (v : Nat) (h : 12 ≤ d.length) :
    free_start (set_free_end d v) = free_start d := by
  unfold free_start set_free_end
  rw [rbytes_wbytes_left d 12 (toLE4 v) 8 4 (by omega) (by omega)]

theorem free_end_set_free_end (d : List Nat) (v : Nat) (h : 16 ≤ d.length) :
    free_end (set_free_end d v) = wrap32 v := by
  unfold free_end set_free_end
  rw [rbytes_wbytes_self4 d 12 v (by omega)]
  exact fromLE4_toLE4 v

theorem free_end_set_slot_count (d : List Nat) (v : Nat) (h : 8 ≤ d.length) :
    free_end (set_slot_count d v) = free_end d := by
  unfold free_end set_slot_count
  rw [rbytes_wbytes_right d 4 (toLE4 v) 12 4 (by rw [toLE4_length]; omega)
    (by rw [toLE4_length]; omega)]

theorem free_end_set_free_start (d : List Nat) (v : Nat) (h : 12 ≤ d.length) :
    free_end (set_free_start d v) = free_end d := by
  unfold free_end set_free_start
  rw [rbytes_wbytes_right d 8 (toLE4 v) 12 4 (by rw [toLE4_length])
    (by rw [toLE4_length]; omega)]

theorem slot_count_wbytes_tail (d bs : List Nat) (i : Nat) (hi : 8 ≤ i) (hw : i ≤ d.length) :
    slot_count (wbytes d i bs) = slot_count d := by
  unfold slot_count
  rw [rbytes_wbytes_left d i bs 4 4 (by omega) hw]

theorem free_start_wbytes_tail (d bs : List Nat) (i : Nat) (hi : 12 ≤ i) (hw : i ≤ d.length) :
    free_start (wbytes d i bs) = free_start d := by
  unfold free_start
  rw [rbytes_wbytes_left d i bs 8 4 (by omega) hw]

theorem free_end_wbytes_tail (d bs : List Nat) (i : Nat) (hi : 16 ≤ i) (hw : i ≤ d.length) :
    free_end (wbytes d i bs) = free_end d := by
  unfold free_end
  rw [rbytes_wbytes_left d i bs 12 4 (by omega) hw]

theorem rbytes_set_slot_count (d : List Nat) (v j n : Nat) (hj : 8 ≤ j)
    (h : 8 ≤ d.length) : rbytes (set_slot_count d v) j n = rbytes d j n := by
  unfold set_slot_count
  rw [rbytes_wbytes_right d 4 (toLE4 v) j n (by rw [toLE4_length]; omega)
    (by rw [toLE4_length]; omega)]

theorem rbytes_set_free_start (d : List Nat) (v j n : Nat) (hj : 12 ≤ j)
    (h : 12 ≤ d.length) : rbytes (set_free_start d v) j n = rbytes d j n := by
  unfold set_free_start
  rw [rbytes_wbytes_right d 8 (toLE4 v) j n (by rw [toLE4_length]; omega)
    (by rw [toLE4_length]; omega)]

theorem rbytes_set_free_end (d : List Nat) (v j n : Nat) (hj : 16 ≤ j)
    (h : 16 ≤ d.length) : rbytes (set_free_end d v) j n = rbytes d j n := by
  unfold set_free_end
  rw [rbytes_wbytes_right d 12 (toLE4 v) j n (by rw [toLE4_length]; omega)
    (by rw [toLE4_length]; omega)]

theorem set_slot_count_length (d : List Nat) (v : Nat) (h : 8 ≤ d.length) :
    (set_slot_count d v).length = d.length := by
  unfold set_slot_count
  rw [wbytes_length]
  rw [toLE4_length]; omega

theorem set_free_start_length (d : List Nat) (v : Nat) (h : 12 ≤ d.length) :
    (set_free_start d v).length = d.length := by
  unfold set_free_start
  rw [wbytes_length]
  rw [toLE4_length]; omega

theorem set_free_end_length (d : List Nat) (v : Nat) (h : 16 ≤ d.length) :
    (set_free_end d v).length = d.length := by
  unfold set_free_end
  rw [wbytes_length]
  rw [toLE4_length]; omega

/-! ### The combined header update performed by `insert_row` -/

theorem header3_length (d : List Nat) (a b c : Nat) (h : 16 ≤ d.length) :
    (set_slot_count (set_free_end (set_free_start d a) b) c).length = d.length := by
  rw [set_slot_count_length _ _
      (by rw [set_free_end_length _ _ (by rw [set_free_start_length _ _ (by omega)]; omega),
        set_free_start_length _ _ (by omega)]; omega),
    set_free_end_length _ _ (by rw [set_free_start_length _ _ (by omega)]; omega),
    set_free_start_length _ _ (by omega)]

theorem slot_count_header3 (d : List Nat) (a b c : Nat) (h : 16 ≤ d.length) :
    slot_count (set_slot_count (set_free_end (set_free_start d a) b) c) = wrap32 c := by
  rw [slot_count_set_slot_count _ _
    (by rw [set_free_end_length _ _ (by rw [set_free_start_length _ _ (by omega)]; omega),
      set_free_start_length _ _ (by omega)]; omega)]

theorem free_start_header3 (d : List Nat) (a b c : Nat) (h : 16 ≤ d.length) :
    free_start (set_slot_count (set_free_end (set_free_start d a) b) c) = wrap32 a := by
  have hl1 : (set_free_start d a).length = d.length := set_free_start_length _ _ (by omega)
  have hl2 : (set_free_end (set_free_start d a) b).length = d.length := by
    rw [set_free_end_length _ _ (by omega), hl1]
  rw [free_start_set_slot_count _ _ (by omega), free_start_set_free_end _ _ (by omega),
    free_start_set_free_start _ _ (by omega)]

theorem free_end_header3 (d : List Nat) (a b c : Nat) (h : 16 ≤ d.length) :
    free_end (set_slot_count (set_free_end (set_free_start d a) b) c) = wrap32 b := by
  have hl1 : (set_free_start d a).length = d.length := set_free_start_length _ _ (by omega)
  have hl2 : (set_free_end (set_free_start d a) b).length = d.length := by
    rw [set_free_end_length _ _ (by omega), hl1]
  rw [free_end_set_slot_count _ _ (by omega), free_end_set_free_end _ _ (by omega)]

theorem rbytes_header3 (d : List Nat) (a b c j n : Nat) (hj : 16 ≤ j) (h : 16 ≤ d.length) :
    rbytes (set_slot_count (set_free_end (set_free_start d a) b) c) j n = rbytes d j n := by
  have hl1 : (set_free_start d a).length = d.length := set_free_start_length _ _ (by omega)
  have hl2 : (set_free_end (set_free_start d a) b).length = d.length := by
    rw [set_free_end_length _ _ (by omega), hl1]
  rw [rbytes_set_slot_count _ _ _ _ (by omega) (by omega),
    rbytes_set_free_end _ _ _ _ (by omega) (by omega),
    rbytes_set_free_start _ _ _ _ (by omega) (by omega)]

/-! ### Evaluating `insert_row` on a well-formed page -/

/-- On a page whose header satisfies the slot-directory invariant and which
has room for one more slot entry and one more cell, `insert_row`
performs exactly the three header writes, the slot write and the cell
write, and returns the old `slot_count`. -/
theorem insert_row_ok (S : Nat) (d v : List Nat)
    (hU : d.length + 4 < U32)
    (hfs : free_start d = PAGE_HEADER_SZ + 4 * slot_count d)
    (hfe : free_end d ≤ d.length)
    (hv : v.length = S)
    (hroom : free_start d + 4 + S ≤ free_end d) :
    insert_row S d v =
      .ok (wbytes (wbytes (set_slot_count (set_free_end (set_free_start d
          (_get_slot_id (slot_count d) + 4)) (free_end d - S)) (slot_count d + 1))
          (_get_slot_id (slot_count d)) (toLE4 (free_end d - S)))
          (free_end d - S) v, slot_count d) := by
  have h16 : (16 : Nat) ≤ d.length := by
    unfold PAGE_HEADER_SZ at hfs
    omega
  have hfeU : free_end d < U32 := by omega
  have hsp : free_space d = free_end d - free_start d := by
    unfold free_space
    exact sub32_eq _ _ (by omega) hfeU
  have hal : sub32 (free_end d) S = free_end d - S := sub32_eq _ _ (by omega) hfeU
  have hw4 : wrap32 (free_start d + 4) = free_start d + 4 := wrap32_eq _ (by omega)
  have h16' : ¬ d.length < PAGE_HEADER_SZ := by
    unfold PAGE_HEADER_SZ
    omega
  have hslid : _get_slot_id (slot_count d) = free_start d := by
    unfold _get_slot_id PAGE_HEADER_SZ at *
    omega
  have hl3 : (set_slot_count (set_free_end (set_free_start d
      (_get_slot_id (slot_count d) + 4)) (free_end d - S)) (slot_count d + 1)).length
      = d.length := header3_length d _ _ _ h16
  simp only [insert_row]
  rw [if_neg h16', hsp, if_neg (show ¬ free_end d - free_start d ≤ S by omega),
    hal, hw4, if_neg (show ¬ free_end d - S < free_start d + 4 by omega), hl3,
    if_neg (show ¬ _get_slot_id (slot_count d) + 4 > d.length by omega)]
  have hl4 : (wbytes (set_slot_count (set_free_end (set_free_start d
      (_get_slot_id (slot_count d) + 4)) (free_end d - S)) (slot_count d + 1))
      (_get_slot_id (slot_count d)) (toLE4 (free_end d - S))).length = d.length := by
    rw [wbytes_length _ _ _ (by rw [toLE4_length, hl3]; omega), hl3]
  rw [Nat.sub_add_cancel (show S ≤ free_end d by omega), wrap32_eq _ hfeU, hl4,
    if_neg (show ¬ (free_end d - S > free_end d ∨ free_end d > d.length ∨
      v.length ≠ free_end d - (free_end d - S)) by
        rintro (hc | hc | hc) <;> omega)]

/-- Full postcondition of a successful `insert_row`: the new header
values, the new slot entry, the new cell, and frame conditions for the
untouched slot-directory region `[16, free_start)` and cell region
`[free_end, ..)`. -/
theorem insert_row_post (S : Nat) (d v : List Nat)
    (hU : d.length + 4 < U32)
    (hfs : free_start d = PAGE_HEADER_SZ + 4 * slot_count d)
    (hfe : free_end d ≤ d.length)
    (hv : v.length = S)
    (hroom : free_start d + 4 + S ≤ free_end d) :
    ∃ d', insert_row S d v = .ok (d', slot_count d) ∧
      d'.length = d.length ∧
      slot_count d' = slot_count d + 1 ∧
      free_start d' = free_start d + 4 ∧
      free_end d' = free_end d - S ∧
      rbytes d' (_get_slot_id (slot_count d)) 4 = toLE4 (free_end d - S) ∧
      rbytes d' (free_end d - S) S = v ∧
      (∀ j n, 16 ≤ j → j + n ≤ _get_slot_id (slot_count d) →
        rbytes d' j n = rbytes d j n) ∧
      (∀ j n, free_end d ≤ j → rbytes d' j n = rbytes d j n) := by
  have h16 : (16 : Nat) ≤ d.length := by
    unfold PAGE_HEADER_SZ at hfs
    omega
  have h16e : PAGE_HEADER_SZ = (16 : Nat) := rfl
  have hok := insert_row_ok S d v hU hfs hfe hv hroom
  have hslid : _get_slot_id (slot_count d) = free_start d := by
    unfold _get_slot_id PAGE_HEADER_SZ at *
    omega
  have hscU : slot_count d + 1 < U32 := by
    rw [h16e] at hfs
    omega
  have hX : (set_slot_count (set_free_end (set_free_start d
      (_get_slot_id (slot_count d) + 4)) (free_end d - S)) (slot_count d + 1)).length
      = d.length := header3_length d _ _ _ h16
  have hA : (wbytes (set_slot_count (set_free_end (set_free_start d
      (_get_slot_id (slot_count d) + 4)) (free_end d - S)) (slot_count d + 1))
      (_get_slot_id (slot_count d)) (toLE4 (free_end d - S))).length = d.length := by
    rw [wbytes_length _ _ _ (by rw [toLE4_length, hX]; omega), hX]
  set X := set_slot_count (set_free_end (set_free_start d
      (_get_slot_id (slot_count d) + 4)) (free_end d - S)) (slot_count d + 1) with hXdef
  set A := wbytes X (_get_slot_id (slot_count d)) (toLE4 (free_end d - S)) with hAdef
  refine ⟨_, hok, ?_, ?_, ?_, ?_, ?_, ?_, ?_, ?_⟩
  · rw [wbytes_length _ _ _ (by rw [hA, hv]; omega), hA]
  · rw [slot_count_wbytes_tail A v (free_end d - S) (by omega) (by rw [hA]; omega),
      hAdef, slot_count_wbytes_tail X _ _ (by rw [hslid]; omega)
        (by rw [hX, hslid]; omega),
      hXdef, slot_count_header3 d _ _ _ h16, wrap32_eq _ hscU]
  · rw [free_start_wbytes_tail A v (free_end d - S) (by omega) (by rw [hA]; omega),
      hAdef, free_start_wbytes_tail X _ _ (by rw [hslid]; omega)
        (by rw [hX, hslid]; omega),
      hXdef, free_start_header3 d _ _ _ h16, hslid, wrap32_eq _ (by omega)]
  · rw [free_end_wbytes_tail A v (free_end d - S) (by omega) (by rw [hA]; omega),
      hAdef, free_end_wbytes_tail X _ _ (by rw [hslid]; omega)
        (by rw [hX, hslid]; omega),
      hXdef, free_end_header3 d _ _ _ h16, wrap32_eq _ (by omega)]
  · rw [rbytes_wbytes_left A (free_end d - S) v _ 4 (by rw [hslid]; omega)
        (by rw [hA]; omega),
      hAdef, rbytes_wbytes_self4 X _ _ (by rw [hX, hslid]; omega)]
  · have hcell := rbytes_wbytes_self A (free_end d - S) v (by rw [hA]; omega)
    rwa [hv] at hcell
  · intro j n hj hjn
    rw [rbytes_wbytes_left A (free_end d - S) v j n (by rw [hslid] at hjn; omega)
        (by rw [hA]; omega),
      hAdef, rbytes_wbytes_left X _ _ j n hjn (by rw [hX, hslid]; omega),
      hXdef, rbytes_header3 d _ _ _ j n hj h16]
  · intro j n hj
    rw [rbytes_wbytes_right A (free_end d - S) v j n (by omega) (by rw [hA, hv]; omega),
      hAdef, rbytes_wbytes_right X _ _ j n (by rw [toLE4_length, hslid]; omega)
        (by rw [toLE4_length, hX, hslid]; omega),
      hXdef, rbytes_header3 d _ _ _ j n (by omega) h16]

/-- `insert_row` reports `NoSpace` exactly when the free gap cannot hold a
cell plus one spare byte or cannot hold the new slot entry. -/
theorem insert_row_noSpace_iff (S : Nat) (d v : List Nat)
    (hU : d.length + 4 < U32)
    (h16 : PAGE_HEADER_SZ ≤ d.length)
    (hle : free_start d ≤ free_end d)
    (hfe : free_end d ≤ d.length) :
    (insert_row S d v = .err .NoSpace ↔
      free_end d - free_start d ≤ S ∨ free_end d - S < free_start d + 4) := by
  have hfeU : free_end d < U32 := by
    unfold U32 at *
    omega
  have hsp : free_space d = free_end d - free_start d := by
    unfold free_space
    exact sub32_eq _ _ hle hfeU
  have h16' : ¬ d.length < PAGE_HEADER_SZ := by omega
  simp only [insert_row]
  rw [if_neg h16', hsp]
  by_cases h1 : free_end d - free_start d ≤ S
  · rw [if_pos h1]
    simp [h1]
  · rw [if_neg h1]
    have hal : sub32 (free_end d) S = free_end d - S := sub32_eq _ _ (by omega) hfeU
    have hw4 : wrap32 (free_start d + 4) = free_start d + 4 := by
      apply wrap32_eq
      unfold U32 PAGE_HEADER_SZ at *
      omega
    rw [hal, hw4]
    by_cases h2 : free_end d - S < free_start d + 4
    · rw [if_pos h2]
      simp [h1, h2]
    · rw [if_neg h2]
      constructor
      · intro h
        split at h
        · exact absurd h (by simp)
        · split at h
          · exact absurd h (by simp)
          · exact absurd h (by simp)
      · intro h
        rcases h with h | h <;> omega

/-! ### Facts about the fresh page -/

theorem newHeaderBytes_length (z : Nat) : (newHeaderBytes z).length = 16 := rfl

theorem newPageData_eq (z : Nat) (_h : 16 ≤ z) :
    newPageData z = newHeaderBytes z ++ List.replicate (z - 16) 0 := by
  unfold newPageData wbytes
  rw [newHeaderBytes_length]
  simp

theorem newPageData_length (z : Nat) (h : 16 ≤ z) : (newPageData z).length = z := by
  rw [newPageData_eq z h]
  simp [newHeaderBytes_length]
  omega

theorem slot_count_newPageData (z : Nat) (h : 16 ≤ z) :
    slot_count (newPageData z) = 0 := by
  rw [newPageData_eq z h]
  unfold slot_count rbytes newHeaderBytes PAGE_HEADER_SZ toLE4 fromLE4
  simp

theorem free_start_newPageData (z : Nat) (h : 16 ≤ z) :
    free_start (newPageData z) = 16 := by
  rw [newPageData_eq z h]
  unfold free_start rbytes newHeaderBytes PAGE_HEADER_SZ toLE4 fromLE4
  simp

theorem free_end_newPageData (z : Nat) (h : 16 ≤ z) :
    free_end (newPageData z) = wrap32 z := by
  rw [newPageData_eq z h]
  unfold free_end rbytes newHeaderBytes PAGE_HEADER_SZ toLE4 fromLE4 wrap32 U32
  simp
  omega

/-! ### Packed-page representation predicates -/

theorem PageRep_new (S Z : Nat) (hZ : 16 ≤ Z) (hU : Z < U32) :
    PageRep S Z [] (newPageData Z) := by
  refine ⟨newPageData_length Z hZ, slot_count_newPageData Z hZ, ?_, ?_, ?_, ?_, ?_, ?_⟩
  · rw [free_start_newPageData Z hZ]
    rfl
  · rw [free_end_newPageData Z hZ, wrap32_eq _ hU]
    simp
  · simpa [PAGE_HEADER_SZ] using hZ
  · intro j hj
    simp at hj
  · intro j hj
    simp at hj
  · intro w hw
    simp at hw

/-- Inserting one more record into a represented page with room for it. -/
theorem PageRep_insert (S Z : Nat) (ws : List (List Nat)) (d v : List Nat)
    (hU : Z + 4 < U32) (rep : PageRep S Z ws d) (hv : v.length = S)
    (hfit : PAGE_HEADER_SZ + (ws.length + 1) * (S + 4) ≤ Z) :
    ∃ d', insert_row S d v = .ok (d', ws.length) ∧ PageRep S Z (ws ++ [v]) d' := by
  obtain ⟨hlen, hsc, hfs, hfe, hroom, hslots, hcells, hwlen⟩ := rep
  have h16e : PAGE_HEADER_SZ = (16 : Nat) := rfl
  have hexp : (ws.length + 1) * (S + 4) = ws.length * S + 4 * ws.length + S + 4 := by ring
  have hexp2 : ws.length * (S + 4) = ws.length * S + 4 * ws.length := by ring
  have hkS1 : (ws.length + 1) * S = ws.length * S + S := by ring
  have hroom' : free_start d + 4 + S ≤ free_end d := by
    rw [hfs, hfe, h16e]
    rw [h16e] at hfit
    omega
  obtain ⟨d', hok, hlen', hsc', hfs', hfe', hslot', hcell', hfr1, hfr2⟩ :=
    insert_row_post S d v (by omega) (by rw [hfs, hsc]) (by rw [hfe, hlen]; omega) hv hroom'
  rw [hsc] at hok hsc' hslot'
  refine ⟨d', hok, ?_, ?_, ?_, ?_, ?_, ?_, ?_, ?_⟩
  · rw [hlen', hlen]
  · rw [hsc']
    simp
  · rw [hfs', hfs]
    simp
    rw [h16e]
    omega
  · rw [hfe', hfe]
    simp
    omega
  · simpa using hfit
  · intro j hj
    simp at hj
    rcases Nat.lt_or_ge j ws.length with hlt | hge
    · rw [hfr1 (_get_slot_id j) 4 (by unfold _get_slot_id PAGE_HEADER_SZ; omega)
        (by unfold _get_slot_id PAGE_HEADER_SZ; omega)]
      exact hslots j hlt
    · have hjeq : j = ws.length := by omega
      subst hjeq
      rw [hslot']
      unfold cellOff
      rw [hfe]
      congr 1
      omega
  · intro j hj
    simp at hj
    rcases Nat.lt_or_ge j ws.length with hlt | hge
    · have hmul : (j + 1) * S ≤ ws.length * S := Nat.mul_le_mul_right S (by omega)
      rw [hfr2 (cellOff S Z j) S (by unfold cellOff; rw [hfe]; omega)]
      rw [List.getD_append ws [v] [] j hlt]
      exact hcells j hlt
    · have hjeq : j = ws.length := by omega
      subst hjeq
      have hco : cellOff S Z ws.length = free_end d - S := by
        unfold cellOff
        rw [hfe]
        omega
      rw [hco, hcell', List.getD_append_right ws [v] [] ws.length (by omega)]
      simp
  · intro w hw
    simp at hw
    rcases hw with hw | hw
    · exact hwlen w hw
    · rw [hw, hv]

/-- A page holding its maximum number of records rejects the next insert
with `NoSpace`. -/
theorem PageRep_full (S Z : Nat) (ws : List (List Nat)) (d v : List Nat)
    (hU : Z + 4 < U32) (rep : PageRep S Z ws d)
    (hfull : Z < PAGE_HEADER_SZ + (ws.length + 1) * (S + 4)) :
    insert_row S d v = .err .NoSpace := by
  obtain ⟨hlen, hsc, hfs, hfe, hroom, hslots, hcells, hwlen⟩ := rep
  have h16e : PAGE_HEADER_SZ = (16 : Nat) := rfl
  have hexp : (ws.length + 1) * (S + 4) = ws.length * S + 4 * ws.length + S + 4 := by ring
  have hexp2 : ws.length * (S + 4) = ws.length * S + 4 * ws.length := by ring
  rw [h16e] at hroom hfull
  have hle : free_start d ≤ free_end d := by
    rw [hfs, hfe, h16e]
    omega
  rw [insert_row_noSpace_iff S d v (by omega) (by rw [hlen, h16e]; omega) hle
    (by rw [hfe, hlen]; omega)]
  rw [hfs, hfe, h16e]
  right
  omega

/-- Reading back slot `j` of a represented page. -/
theorem PageRep_access (S Z : Nat) (ws : List (List Nat)) (d : List Nat)
    (hU : Z + 4 < U32) (rep : PageRep S Z ws d) (j : Nat) (hj : j < ws.length) :
    access_row S d j = .ok (some (ws.getD j [])) := by
  obtain ⟨hlen, hsc, hfs, hfe, hroom, hslots, hcells, hwlen⟩ := rep
  have h16e : PAGE_HEADER_SZ = (16 : Nat) := rfl
  have hexp2 : ws.length * (S + 4) = ws.length * S + 4 * ws.length := by ring
  have hmul : (j + 1) * S ≤ ws.length * S := Nat.mul_le_mul_right S (by omega)
  have hjS : S ≤ (j + 1) * S := Nat.le_mul_of_pos_left S (by omega)
  have h16 : ¬ d.length < PAGE_HEADER_SZ := by
    rw [hlen, h16e]
    rw [h16e] at hroom
    omega
  have hZU : Z < U32 := by
    unfold U32 at *
    omega
  have hoff : _offset j (slot_count d) d = some (cellOff S Z j) := by
    simp only [_offset, _get_slot_id]
    rw [hsc, if_neg (by omega : ¬ j ≥ ws.length)]
    rw [if_neg (show ¬ PAGE_HEADER_SZ + j * 4 + 4 > d.length by
      rw [hlen, h16e]
      rw [h16e] at hroom
      omega)]
    have hslot := hslots j hj
    unfold _get_slot_id at hslot
    rw [hslot, fromLE4_toLE4, wrap32_eq _ (by unfold cellOff; omega)]
  simp only [access_row, hoff]
  rw [if_neg h16]
  rw [if_neg (show ¬ cellOff S Z j + S > d.length by
    rw [hlen]
    unfold cellOff
    omega)]
  rw [hcells j hj]

/-! ### Shape invariant preserved by inserts and logical deletes -/

theorem _offset_eq_some (n sc : Nat) (d : List Nat) (off : Nat)
    (h : _offset n sc d = some off) :
    n < sc ∧ _get_slot_id n + 4 ≤ d.length ∧ off = fromLE4 (rbytes d (_get_slot_id n) 4) := by
  simp only [_offset] at h
  split at h
  · exact absurd h (by simp)
  · split at h
    · exact absurd h (by simp)
    · rename_i h1 h2
      injection h with h3
      exact ⟨by omega, by omega, h3.symm⟩

theorem PageShape_insert (S Z k : Nat) (d v d' : List Nat) (s : Nat)
    (hU : Z + 4 < U32) (shape : PageShape S Z k d)
    (hok : insert_row S d v = .ok (d', s)) :
    s = k ∧ PageShape S Z (k + 1) d' := by
  obtain ⟨hlen, hsc, hfs, hfe, hroom, hslots⟩ := shape
  have h16e : PAGE_HEADER_SZ = (16 : Nat) := rfl
  have hexp2 : k * (S + 4) = k * S + 4 * k := by ring
  have hexp1 : (k + 1) * (S + 4) = k * S + 4 * k + S + 4 := by ring
  have hexpS : (k + 1) * S = k * S + S := by ring
  have hfeU : free_end d < U32 := by
    rw [hfe]
    omega
  have hle : free_start d ≤ free_end d := by
    rw [hfs, hfe, h16e]
    rw [h16e] at hroom
    omega
  have hok0 := hok
  simp only [insert_row] at hok
  split at hok
  · exact absurd hok (by simp)
  split at hok
  · exact absurd hok (by simp)
  split at hok
  · exact absurd hok (by simp)
  split at hok
  · exact absurd hok (by simp)
  split at hok
  · exact absurd hok (by simp)
  rename_i hn1 hn2 hn3 hn4 hn5
  clear hok
  have hsp : free_space d = free_end d - free_start d := by
    unfold free_space
    exact sub32_eq _ _ hle hfeU
  rw [hsp] at hn2
  have hSfe : S ≤ free_end d := by omega
  have hal : sub32 (free_end d) S = free_end d - S := sub32_eq _ _ hSfe hfeU
  have hw4 : wrap32 (free_start d + 4) = free_start d + 4 := by
    apply wrap32_eq
    rw [hfs, h16e]
    rw [h16e] at hroom
    omega
  rw [hal, hw4] at hn3
  have hce : wrap32 (free_end d - S + S) = free_end d := by
    rw [Nat.sub_add_cancel hSfe]
    exact wrap32_eq _ hfeU
  rw [hal, hce] at hn5
  push_neg at hn5
  obtain ⟨-, -, hvl⟩ := hn5
  have hv : v.length = S := by omega
  have hroom' : free_start d + 4 + S ≤ free_end d := by omega
  obtain ⟨d2, heq, hlen2, hsc2, hfs2, hfe2, hslot2, hcell2, hfr1, hfr2⟩ :=
    insert_row_post S d v (by omega) (by rw [hfs, hsc]) (by rw [hfe, hlen]; omega) hv hroom'
  rw [heq] at hok0
  injection hok0 with hpair
  rw [Prod.mk.injEq] at hpair
  obtain ⟨hd, hs⟩ := hpair
  subst hd
  constructor
  · omega
  refine ⟨by rw [hlen2, hlen], by rw [hsc2, hsc], ?_, ?_, ?_, ?_⟩
  · rw [hfs2, hfs, h16e]
    omega
  · rw [hfe2, hfe]
    omega
  · rw [hfs, hfe] at hroom'
    rw [h16e] at hroom' ⊢
    omega
  · intro j hj
    rcases Nat.lt_or_ge j k with hlt | hge
    · rw [hsc] at hfr1
      rw [hfr1 (_get_slot_id j) 4 (by unfold _get_slot_id PAGE_HEADER_SZ; omega)
        (by unfold _get_slot_id PAGE_HEADER_SZ at *; omega)]
      exact hslots j hlt
    · have hjeq : j = k := by omega
      subst hjeq
      rw [hsc] at hslot2
      rw [hslot2]
      unfold cellOff
      rw [hfe]
      congr 1
      omega

theorem PageShape_delete (S Z k : Nat) (dr : Nat → List Nat) (d : List Nat) (n : Nat)
    (d' : List Nat) (hU : Z + 4 < U32) (shape : PageShape S Z k d)
    (hok : set_row_deleted S dr d n = .ok d') :
    PageShape S Z k d' := by
  obtain ⟨hlen, hsc, hfs, hfe, hroom, hslots⟩ := shape
  have h16e : PAGE_HEADER_SZ = (16 : Nat) := rfl
  have hexp2 : k * (S + 4) = k * S + 4 * k := by ring
  simp only [set_row_deleted] at hok
  split at hok
  · exact absurd hok (by simp)
  split at hok
  · exact absurd hok (by simp)
  rename_i hn1 off hoff
  split at hok
  · exact absurd hok (by simp)
  split at hok
  · exact absurd hok (by simp)
  rename_i hbound hslen
  obtain ⟨hnk, hsl4, hoffeq⟩ := _offset_eq_some n (slot_count d) d off hoff
  rw [hsc] at hnk
  have hmul : (n + 1) * S ≤ k * S := Nat.mul_le_mul_right S (by omega)
  have hco : off = cellOff S Z n := by
    rw [hoffeq, hslots n hnk, fromLE4_toLE4]
    apply wrap32_eq
    unfold cellOff
    omega
  have hofffe : free_end d ≤ off := by
    rw [hco, hfe]
    unfold cellOff
    omega
  have hofffs : (16 : Nat) + 4 * k ≤ off := by
    rw [h16e] at hroom
    rw [hfe] at hofffe
    omega
  injection hok with hd
  subst hd
  have hofflen : off + S ≤ d.length := by omega
  have hdr : (dr n).length = S := by omega
  refine ⟨?_, ?_, ?_, ?_, hroom, ?_⟩
  · rw [wbytes_length _ _ _ (by omega : off + (dr n).length ≤ d.length), hlen]
  · rw [slot_count_wbytes_tail _ _ _ (by omega) (by omega), hsc]
  · rw [free_start_wbytes_tail _ _ _ (by omega) (by omega), hfs]
  · rw [free_end_wbytes_tail _ _ _ (by omega) (by omega), hfe]
  · intro j hj
    rw [rbytes_wbytes_left _ _ _ _ _ (by unfold _get_slot_id PAGE_HEADER_SZ; omega)
      (by omega)]
    exact hslots j hj

theorem PageReach_shape (S Z : Nat) (hU : Z + 4 < U32) (d : List Nat)
    (h : PageReach S Z d) : ∃ k, PageShape S Z k d := by
  induction h with
  | init d hnew =>
    refine ⟨0, ?_⟩
    simp only [SlottedPage.new] at hnew
    split at hnew
    · exact absurd hnew (by simp)
    · rename_i hz
      unfold PAGE_HEADER_SZ at hz
      injection hnew with hd
      subst hd
      refine ⟨newPageData_length Z (by omega), slot_count_newPageData Z (by omega), ?_, ?_, ?_, ?_⟩
      · rw [free_start_newPageData Z (by omega)]
        rfl
      · rw [free_end_newPageData Z (by omega), wrap32_eq _ (by omega)]
        simp
      · simp [PAGE_HEADER_SZ]
        omega
      · intro j hj
        simp at hj
  | ins d v d' s _ hins ih =>
    obtain ⟨k, hs⟩ := ih
    exact ⟨k + 1, (PageShape_insert S Z k d v d' s hU hs hins).2⟩
  | del d dr n d' _ hdel ih =>
    obtain ⟨k, hs⟩ := ih
    exact ⟨k, PageShape_delete S Z k dr d n d' hU hs hdel⟩

/-! ## Claim C8 -/

/-- C8: every page state reachable from `SlottedPage::new()` by any
sequence of `insert_row` and `set_row_deleted` calls satisfies
`PAGE_HEADER_SZ + slot_count * 4 = free_start`,
`free_end + slot_count * S = PAGE_SZ`, and
`free_start ≤ free_end ≤ PAGE_SZ` (page size `Z` in the `u32` range). -/
theorem C8_page_invariants (S Z : Nat) (d : List Nat)
    (hU : Z + 4 < U32) (hreach : PageReach S Z d) :
    PAGE_HEADER_SZ + slot_count d * 4 = free_start d ∧
    free_end d + slot_count d * S = Z ∧
    free_start d ≤ free_end d ∧ free_end d ≤ Z := by
  obtain ⟨k, shape⟩ := PageReach_shape S Z hU d hreach
  obtain ⟨hlen, hsc, hfs, hfe, hroom, hslots⟩ := shape
  have hexp2 : k * (S + 4) = k * S + 4 * k := by ring
  have h16e : PAGE_HEADER_SZ = (16 : Nat) := rfl
  rw [h16e] at hroom
  refine ⟨?_, ?_, ?_, ?_⟩ <;> simp only [hsc, hfs, hfe, h16e] <;> omega

/-- Witness for C8: the fresh page for `S = 2`, `PAGE_SZ = 22`. -/
theorem C8_witness :
    PAGE_HEADER_SZ + slot_count (newPageData 22) * 4 = free_start (newPageData 22) ∧
    free_end (newPageData 22) + slot_count (newPageData 22) * 2 = 22 ∧
    free_start (newPageData 22) ≤ free_end (newPageData 22) ∧
    free_end (newPageData 22) ≤ 22 :=
  C8_page_invariants 2 22 (newPageData 22) (by decide) (PageReach.init (newPageData 22) rfl)

/-! ## Claim C2 -/

/-- C2: for every page state whose header satisfies the documented page
invariants (`free_start = PAGE_HEADER_SZ + 4 * slot_count`,
`free_start ≤ free_end ≤ PAGE_SZ`), `insert_row(v)` returns `NoSpace` iff
`free_end - free_start ≤ S` or `free_end - S < free_start + 4`, and
otherwise succeeds: it returns the old `slot_count`, sets `slot_count` to
`sc + 1`, `free_start` to `PAGE_HEADER_SZ + 4 * (sc + 1)`, `free_end` to
`fe - S`, writes `fe - S` as a little-endian `u32` at byte offset
`PAGE_HEADER_SZ + 4 * sc`, and writes `encode(v) = v` into bytes
`[fe - S, fe)`. -/
theorem C2_insert_row_contract (S PAGE_SZ : Nat) (d v : List Nat)
    (hlen : d.length = PAGE_SZ)
    (hU : PAGE_SZ + 4 < U32)
    (hfs : free_start d = PAGE_HEADER_SZ + 4 * slot_count d)
    (hle : free_start d ≤ free_end d)
    (hfe : free_end d ≤ PAGE_SZ)
    (hv : v.length = S) :
    (insert_row S d v = .err .NoSpace ↔
      free_end d - free_start d ≤ S ∨ free_end d - S < free_start d + 4) ∧
    (¬ (free_end d - free_start d ≤ S ∨ free_end d - S < free_start d + 4) →
      ∃ d', insert_row S d v = .ok (d', slot_count d) ∧
        slot_count d' = slot_count d + 1 ∧
        free_start d' = PAGE_HEADER_SZ + 4 * (slot_count d + 1) ∧
        free_end d' = free_end d - S ∧
        rbytes d' (PAGE_HEADER_SZ + 4 * slot_count d) 4 = toLE4 (free_end d - S) ∧
        rbytes d' (free_end d - S) S = v) := by
  have h16 : PAGE_HEADER_SZ ≤ d.length := by
    unfold PAGE_HEADER_SZ at *
    omega
  constructor
  · exact insert_row_noSpace_iff S d v (by omega) h16 hle (by omega)
  · intro hc
    push_neg at hc
    obtain ⟨h1, h2⟩ := hc
    have h16n : (16 : Nat) ≤ d.length := h16
    have h16e : PAGE_HEADER_SZ = (16 : Nat) := rfl
    have hroom : free_start d + 4 + S ≤ free_end d := by omega
    have hok := insert_row_ok S d v (by omega) hfs (by omega) hv hroom
    have hslid : _get_slot_id (slot_count d) = free_start d := by
      unfold _get_slot_id PAGE_HEADER_SZ at *
      omega
    have hscU : slot_count d + 1 < U32 := by
      rw [h16e] at hfs
      omega
    have hX : (set_slot_count (set_free_end (set_free_start d
        (_get_slot_id (slot_count d) + 4)) (free_end d - S)) (slot_count d + 1)).length
        = d.length := header3_length d _ _ _ h16n
    have hA : (wbytes (set_slot_count (set_free_end (set_free_start d
        (_get_slot_id (slot_count d) + 4)) (free_end d - S)) (slot_count d + 1))
        (_get_slot_id (slot_count d)) (toLE4 (free_end d - S))).length = d.length := by
      rw [wbytes_length _ _ _ (by rw [toLE4_length, hX]; omega), hX]
    set X := set_slot_count (set_free_end (set_free_start d
        (_get_slot_id (slot_count d) + 4)) (free_end d - S)) (slot_count d + 1) with hXdef
    set A := wbytes X (_get_slot_id (slot_count d)) (toLE4 (free_end d - S)) with hAdef
    refine ⟨_, hok, ?_, ?_, ?_, ?_, ?_⟩
    · rw [slot_count_wbytes_tail A v (free_end d - S) (by omega) (by rw [hA]; omega),
        hAdef, slot_count_wbytes_tail X _ _ (by rw [hslid]; omega)
          (by rw [hX, hslid]; omega),
        hXdef, slot_count_header3 d _ _ _ h16n, wrap32_eq _ hscU]
    · rw [free_start_wbytes_tail A v (free_end d - S) (by omega) (by rw [hA]; omega),
        hAdef, free_start_wbytes_tail X _ _ (by rw [hslid]; omega)
          (by rw [hX, hslid]; omega),
        hXdef, free_start_header3 d _ _ _ h16n, wrap32_eq _ (by rw [hslid]; omega), hslid]
      rw [h16e] at hfs ⊢
      omega
    · rw [free_end_wbytes_tail A v (free_end d - S) (by omega) (by rw [hA]; omega),
        hAdef, free_end_wbytes_tail X _ _ (by rw [hslid]; omega)
          (by rw [hX, hslid]; omega),
        hXdef, free_end_header3 d _ _ _ h16n, wrap32_eq _ (by omega)]
    · have hidx : PAGE_HEADER_SZ + 4 * slot_count d = _get_slot_id (slot_count d) := by
        unfold _get_slot_id
        ring
      rw [hidx, rbytes_wbytes_left A (free_end d - S) v _ 4 (by rw [hslid]; omega)
          (by rw [hA]; omega),
        hAdef, rbytes_wbytes_self4 X _ _ (by rw [hX, hslid]; omega)]
    · have hcell := rbytes_wbytes_self A (free_end d - S) v (by rw [hA]; omega)
      rwa [hv] at hcell

/-- Witness for C2 at `S = 2`, `PAGE_SZ = 22`, a fresh page and the record
`[7, 9]`: the insert does not report `NoSpace`. -/
theorem C2_witness : insert_row 2 (newPageData 22) [7, 9] ≠ .err .NoSpace := by
  intro h
  have hc := (C2_insert_row_contract 2 22 (newPageData 22) [7, 9] (by decide) (by decide)
      (by decide) (by decide) (by decide) (by decide)).1.mp h
  revert hc
  decide


/-! ## Claim C9 -/

/-- C9 as stated is false: over `u32` arithmetic `to_row_id` wraps.  With
`S = 8`, `PAGE_SZ = 40` the fan-out is `max_rows_per_page = 2`, and for
`page_id = 2^31`, `slot = 0 < 2` the product `2^31 * 2` wraps to `0`, so
the round trip returns `(0, 0)`, not `(2^31, 0)`. -/
theorem C9_counterexample :
    max_rows_per_page 8 40 = 2 ∧
    (0 : Nat) < max_rows_per_page 8 40 ∧
    RowQuery.from_row_id 8 40 (RowQuery.to_row_id 8 40 2147483648 0) = some (0, 0) ∧
    ((0 : Nat), (0 : Nat)) ≠ ((2147483648 : Nat), (0 : Nat)) := by decide

/-- C9 amended: the round trip `from_row_id (to_row_id pid slot) = (pid,
slot)` holds for `slot < max_rows_per_page` whenever
`pid * max_rows_per_page + slot` does not overflow a `u32`. -/
theorem C9_roundtrip_amended (S Z pid slot : Nat)
    (hslot : slot < max_rows_per_page S Z)
    (hno : pid * max_rows_per_page S Z + slot < U32) :
    RowQuery.from_row_id S Z (RowQuery.to_row_id S Z pid slot) = some (pid, slot) := by
  have hM : max_rows_per_page S Z < U32 := by
    unfold max_rows_per_page
    exact Nat.lt_of_le_of_lt (Nat.div_le_self _ _) (sub32_lt _ _)
  have hMpos : 0 < max_rows_per_page S Z := by omega
  have hMw : wrap32 (max_rows_per_page S Z) = max_rows_per_page S Z := wrap32_eq _ hM
  unfold RowQuery.to_row_id RowQuery.from_row_id
  rw [hMw, wrap32_eq _ (by omega : pid * max_rows_per_page S Z < U32),
    wrap32_eq _ hno]
  rw [if_neg (by omega)]
  have hrid : pid * max_rows_per_page S Z + slot = slot + pid * max_rows_per_page S Z := by
    omega
  rw [hrid, Nat.add_mul_div_right slot pid hMpos, Nat.div_eq_of_lt hslot,
    Nat.add_mul_mod_self_right, Nat.mod_eq_of_lt hslot, Nat.zero_add]

/-- Witness for C9 amended: `S = 8`, `PAGE_SZ = 40` (fan-out 2),
`pid = 3`, `slot = 1`. -/
theorem C9_witness :
    RowQuery.from_row_id 8 40 (RowQuery.to_row_id 8 40 3 1) = some (3, 1) :=
  C9_roundtrip_amended 8 40 3 1 (by decide) (by decide)

/-! ## Claim C6 -/

/-- C6 as stated is false on both counts: (a) on a fresh page,
`access_row(0)` with `0 ≥ slot_count` returns `Err(RowNotFound)`, not
`Ok(None)`; (b) on `corruptPage`, slot 0 holds offset 17 with
`[17, 19) ⊄ [free_end, PAGE_SZ) = [20, 22)`, yet `access_row(0)` does not
return `RowNotFound` — it reads the two bytes at offset 17. -/
theorem C6_counterexample :
    access_row 2 (newPageData 22) 0 = .err .RowNotFound ∧
    slot_count corruptPage = 1 ∧
    free_end corruptPage = 20 ∧
    _offset 0 (slot_count corruptPage) corruptPage = some 17 ∧
    ¬ (free_end corruptPage ≤ 17) ∧
    access_row 2 corruptPage 0 = .ok (some [0, 0]) := by decide

/-- C6 amended: `access_row(slot_n)` with `slot_n ≥ slot_count` returns
`Err(RowNotFound)` (the page-level `access_row` never returns `Ok(None)`),
and no `[off, off+S) ⊆ [free_end, PAGE_SZ)` validation is performed: when
the slot-directory entry is readable and the stored offset `off` satisfies
only `off + S ≤ PAGE_SZ`, `access_row` returns the `S` bytes at `off`
regardless of `free_end`. -/
theorem C6_access_row_amended (S : Nat) (d : List Nat) (n : Nat)
    (h16 : PAGE_HEADER_SZ ≤ d.length) :
    (n ≥ slot_count d → access_row S d n = .err .RowNotFound) ∧
    (∀ off, _offset n (slot_count d) d = some off → off + S ≤ d.length →
      access_row S d n = .ok (some (rbytes d off S))) := by
  constructor
  · intro hn
    simp only [access_row, _offset]
    rw [if_neg (by omega : ¬ d.length < PAGE_HEADER_SZ), if_pos hn]
  · intro off hoff hbound
    simp only [access_row, hoff]
    rw [if_neg (by omega : ¬ d.length < PAGE_HEADER_SZ),
      if_neg (by omega : ¬ off + S > d.length)]

/-- Witness for C6 amended, at the corrupt page. -/
theorem C6_witness :
    access_row 2 corruptPage 5 = .err .RowNotFound ∧
    access_row 2 corruptPage 0 = .ok (some (rbytes corruptPage 17 2)) :=
  ⟨(C6_access_row_amended 2 corruptPage 5 (by decide)).1 (by decide),
   (C6_access_row_amended 2 corruptPage 0 (by decide)).2 17 (by decide) (by decide)⟩

/-! ## Claim C7 -/

/-- C7 evaluated at the failing input: with the schema-derived sentinel
(the empty slice that `ledger-rs-macros` always generates),
`set_row_deleted(0)` on a page with one row panics in `copy_from_slice`
(length 0 vs `S = 2`) instead of being a no-op; a sentinel of exactly `S`
bytes does overwrite the cell (bytes `[20, 22)`), as the claim's non-empty
case describes. -/
theorem C7_empty_sentinel_panics :
    insert_row 2 (newPageData 22) [7, 9] = .ok (pageOneRow, 0) ∧
    schema_deleted_row 0 = [] ∧
    set_row_deleted 2 schema_deleted_row pageOneRow 0 = .panic ∧
    set_row_deleted 2 (fun _ => [255, 255]) pageOneRow 0 =
      .ok (wbytes pageOneRow 20 [255, 255]) := by decide

/-! ### Wrapping-arithmetic helpers -/

theorem wrap32_wrap32 (a : Nat) : wrap32 (wrap32 a) = wrap32 a := by
  unfold wrap32 U32
  omega

theorem wrap32_add_left (a b : Nat) : wrap32 (wrap32 a + b) = wrap32 (a + b) := by
  unfold wrap32 U32
  omega

/-! ### Evaluating `allocate_new_page` under normal I/O -/

theorem SlottedPage_new_ok (Z : Nat) (hZ : 16 ≤ Z) :
    SlottedPage.new Z = .ok (newPageData Z) := by
  unfold SlottedPage.new PAGE_HEADER_SZ
  rw [if_neg (by omega)]

theorem SlottedPage_new_panic (Z : Nat) (hZ : Z < 16) :
    SlottedPage.new Z = .panic := by
  unfold SlottedPage.new PAGE_HEADER_SZ
  rw [if_pos (by omega)]

theorem resizePages_length (Z : Nat) (ps : List (List Nat)) (n : Nat) :
    (resizePages Z ps n).length = n := by
  simp [resizePages]
  omega

theorem allocate_new_page_io_ok (Z : Nat) (l : Ledger) (hZ : 16 ≤ Z) :
    allocate_new_page Z true true l =
      .ok { header := { l.header with num_pages := wrap32 (l.header.num_pages + 1) },
            pages := (resizePages Z l.pages (l.header.num_pages + 1)).set
              l.header.num_pages (newPageData Z) }
        l.header.num_pages := by
  unfold allocate_new_page
  rw [SlottedPage_new_ok Z hZ]
  rfl

theorem allocate_new_page_io_panic (Z : Nat) (l : Ledger) (hZ : Z < 16) :
    allocate_new_page Z true true l = .panic := by
  unfold allocate_new_page
  rw [SlottedPage_new_panic Z hZ]
  rfl

/-! ### The ledger header invariant and claim C10 -/

theorem LedgerInv_openFresh (Z : Nat) (l : Ledger)
    (h : DataLedgerStore.openFresh Z = some l) : LedgerInv l := by
  unfold DataLedgerStore.openFresh at h
  split at h
  · rename_i pg hpg
    injection h with h
    subst h
    refine ⟨?_, by simp, ?_⟩ <;> simp <;> rfl
  · exact absurd h (by simp)

theorem LedgerInv_set_page (l : Ledger) (i : Nat) (pg : List Nat) (hinv : LedgerInv l) :
    LedgerInv { l with pages := l.pages.set i pg } := by
  obtain ⟨hnp, hpos, hpc⟩ := hinv
  exact ⟨by simpa using hnp, by simpa using hpos, by simpa using hpc⟩

theorem LedgerInv_rollover (Z : Nat) (l : Ledger) (hpos : 1 ≤ l.pages.length)
    (hnp : l.header.num_pages = wrap32 l.pages.length)
    (hpc : l.header.page_cursor = wrap32 (l.pages.length - 1)) :
    LedgerInv (Ledger.mk
      (LedgerHeader.mk (wrap32 (l.header.num_pages + 1)) l.header.rows_per_page
        (wrap32 (l.header.page_cursor + 1)))
      ((resizePages Z l.pages (l.header.num_pages + 1)).set
        l.header.num_pages (newPageData Z))) := by
  have hlen : ((resizePages Z l.pages (l.header.num_pages + 1)).set
      l.header.num_pages (newPageData Z)).length = l.header.num_pages + 1 := by
    rw [List.length_set, resizePages_length]
  refine ⟨?_, ?_, ?_⟩
  · simp only [hlen]
  · simp only [hlen]
    omega
  · simp only [hlen, Nat.add_sub_cancel]
    rw [hpc, hnp, wrap32_add_left, wrap32_wrap32]
    congr 1
    omega

theorem LedgerInv_insert (S Z : Nat) (l : Ledger) (v : List Nat) (hinv : LedgerInv l) :
    LResInv (DataLedgerStore.insert S Z true true l v) := by
  obtain ⟨hnp, hpos, hpc⟩ := hinv
  unfold DataLedgerStore.insert
  simp only [total_pages]
  by_cases h1 : l.header.page_cursor ≥ l.header.num_pages
  · rw [if_pos h1]
    exact ⟨hnp, hpos, hpc⟩
  rw [if_neg h1]
  cases hpg : l.pages[l.header.page_cursor]? with
  | none => trivial
  | some pg =>
  try dsimp only
  cases hins : insert_row S pg v with
  | ok pr =>
    obtain ⟨pg', row_n⟩ := pr
    try dsimp only
    exact LedgerInv_set_page l _ pg' ⟨hnp, hpos, hpc⟩
  | panic => trivial
  | err e =>
    cases e with
    | NoSpace =>
      try dsimp only
      by_cases hZ : 16 ≤ Z
      · rw [allocate_new_page_io_ok Z l hZ]
        simp only [LedgerHeader.inc_page_cursor]
        have hroll := LedgerInv_rollover Z l hpos hnp hpc
        try dsimp only
        by_cases h2 : wrap32 (l.header.page_cursor + 1) ≥ wrap32 (l.header.num_pages + 1)
        · rw [if_pos h2]
          exact hroll
        rw [if_neg h2]
        cases hpg2 : ((resizePages Z l.pages (l.header.num_pages + 1)).set
            l.header.num_pages (newPageData Z))[wrap32 (l.header.page_cursor + 1)]? with
        | none => trivial
        | some pg2 =>
        try dsimp only
        cases hins2 : insert_row S pg2 v with
        | ok pr2 =>
          obtain ⟨pg2', row_n2⟩ := pr2
          try dsimp only
          exact LedgerInv_set_page _ _ pg2' hroll
        | panic => trivial
        | err e2 => exact hroll
      · rw [allocate_new_page_io_panic Z l (by omega)]
        trivial
    | Error => exact ⟨hnp, hpos, hpc⟩
    | RkyvError => exact ⟨hnp, hpos, hpc⟩
    | PageIdOutOfBounds => exact ⟨hnp, hpos, hpc⟩
    | RowIdOutOfBounds => exact ⟨hnp, hpos, hpc⟩
    | RowNotFound => exact ⟨hnp, hpos, hpc⟩

theorem LedgerInv_write_row (S Z : Nat) (l : Ledger) (rid : Nat) (bs : List Nat)
    (hinv : LedgerInv l) : LResUnitInv (write_row S Z l rid bs) := by
  unfold write_row
  cases hq : RowQuery.from_row_id S Z rid with
  | none => trivial
  | some pr =>
    obtain ⟨page_id, page_row_n⟩ := pr
    try dsimp only
    by_cases hge : page_id ≥ total_pages l
    · rw [if_pos hge]; exact hinv
    rw [if_neg hge]
    cases hpg : l.pages[page_id]? with
    | none => trivial
    | some pg =>
    try dsimp only
    by_cases hsm : pg.length < PAGE_HEADER_SZ
    · rw [if_pos hsm]; trivial
    rw [if_neg hsm]
    cases hoff : _offset page_row_n (slot_count pg) pg with
    | none => exact hinv
    | some off =>
    try dsimp only
    by_cases hob : off + S > pg.length
    · rw [if_pos hob]; trivial
    rw [if_neg hob]
    by_cases hbl : bs.length ≠ S
    · rw [if_pos hbl]; trivial
    rw [if_neg hbl]
    exact LedgerInv_set_page l page_id (wbytes pg off bs) hinv

theorem LReach_inv (S Z : Nat) (l : Ledger) (h : LReach S Z l) : LedgerInv l := by
  induction h with
  | init l hopen => exact LedgerInv_openFresh Z l hopen
  | ins_ok l v l' r _ hins ih =>
    have hres := LedgerInv_insert S Z l v ih
    rw [hins] at hres
    exact hres
  | ins_err l v l' e _ hins ih =>
    have hres := LedgerInv_insert S Z l v ih
    rw [hins] at hres
    exact hres
  | wr l rid bs l' _ hwr ih =>
    have hres := LedgerInv_write_row S Z l rid bs ih
    rw [hwr] at hres
    exact hres

/-! ## Claim C10 -/

/-- C10: in every ledger state reachable from a freshly opened ledger by
completed public-API calls (with fewer pages than `2^32`, the range of the
header's `u32` page counter), `page_cursor = num_pages - 1`; in
particular `1 ≤ num_pages` and the documented bound
`page_cursor < num_pages` holds. -/
theorem C10_cursor_invariant (S Z : Nat) (l : Ledger) (hreach : LReach S Z l)
    (hL : l.pages.length < U32) :
    l.header.page_cursor = l.header.num_pages - 1 ∧
    1 ≤ l.header.num_pages ∧
    l.header.page_cursor < l.header.num_pages := by
  obtain ⟨hnp, hpos, hpc⟩ := LReach_inv S Z l hreach
  rw [hnp, hpc, wrap32_eq _ hL, wrap32_eq _ (by omega)]
  omega

/-- Witness for C10: the freshly opened ledger for `S = 2`,
`PAGE_SZ = 22`. -/
theorem C10_witness :
    (Ledger.mk ⟨1, 0, 0⟩ [newPageData 22]).header.page_cursor =
      (Ledger.mk ⟨1, 0, 0⟩ [newPageData 22]).header.num_pages - 1 ∧
    1 ≤ (Ledger.mk ⟨1, 0, 0⟩ [newPageData 22]).header.num_pages ∧
    (Ledger.mk ⟨1, 0, 0⟩ [newPageData 22]).header.page_cursor <
      (Ledger.mk ⟨1, 0, 0⟩ [newPageData 22]).header.num_pages :=
  C10_cursor_invariant 2 22 (Ledger.mk ⟨1, 0, 0⟩ [newPageData 22])
    (LReach.init (Ledger.mk ⟨1, 0, 0⟩ [newPageData 22]) (by decide)) (by decide)

/-! ## Claim C5 -/

/-- C5 evaluated at the failing input: on the ledger-header state of a
freshly opened (empty) ledger — `num_pages = 1`, `page_cursor = 0` — with
`rows_per_page = 4096`, `LedgerHeader::num_rows` returns
`num_pages * rows_per_page + page_cursor = 4096`, not the claimed
`(num_pages - 1) * rows_per_page + tail slot_count = 0`; the store-level
`DataLedgerStore::num_rows` does return 0 there. -/
theorem C5_header_num_rows_bug :
    LedgerHeader.num_rows ⟨1, 0, 0⟩ 4096 = 4096 ∧
    DataLedgerStore.openFresh 22 = some ⟨⟨1, 0, 0⟩, [newPageData 22]⟩ ∧
    DataLedgerStore.num_rows 2 22 ⟨⟨1, 0, 0⟩, [newPageData 22]⟩ = .ok 0 ∧
    (1 - 1) * 4096 + slot_count (newPageData 22) = 0 := by decide

/-! ## Claim C4 -/

/-- C4 as stated is false: `allocate_new_page` increments the mapped
header's `num_pages` before the fallible `set_len`, so when `set_len`
fails the surfaced I/O error leaves `num_pages` incremented (here: 2 on a
one-page ledger). -/
theorem C4_counterexample :
    allocate_new_page 22 false true ⟨⟨1, 0, 0⟩, [newPageData 22]⟩ =
      .err ⟨⟨2, 0, 0⟩, [newPageData 22]⟩ .ioErr ∧
    (Ledger.mk ⟨2, 0, 0⟩ [newPageData 22]) ≠ ⟨⟨1, 0, 0⟩, [newPageData 22]⟩ := by decide

/-- C4 amended: `insert_row` surfaces no error other than the (recovered,
pre-mutation) `NoSpace`; an error surfaced by `allocate_new_page` is an
I/O error carried by a state whose only header change is the incremented
`num_pages` (and, when `set_len` itself failed, untouched pages); an error
surfaced by `insert` either leaves the ledger unchanged (errors before the
recovery path) or carries the recovery path's mutations: `num_pages` and
`page_cursor` both incremented. -/
theorem C4_error_state_amended :
    (∀ (S : Nat) (d v : List Nat) (e : PageError),
      insert_row S d v = .err e → e = .NoSpace) ∧
    (∀ (Z : Nat) (setLenOk mapOk : Bool) (l l' : Ledger) (e : DsError),
      allocate_new_page Z setLenOk mapOk l = .err l' e →
        e = .ioErr ∧
        l'.header.num_pages = wrap32 (l.header.num_pages + 1) ∧
        l'.header.page_cursor = l.header.page_cursor ∧
        l'.header.rows_per_page = l.header.rows_per_page ∧
        (setLenOk = false → l'.pages = l.pages)) ∧
    (∀ (S Z : Nat) (l : Ledger) (v : List Nat) (l' : Ledger) (e : DsError),
      DataLedgerStore.insert S Z true true l v = .err l' e →
        l' = l ∨
        (l'.header.num_pages = wrap32 (l.header.num_pages + 1) ∧
         l'.header.page_cursor = wrap32 (l.header.page_cursor + 1))) := by
  refine ⟨?_, ?_, ?_⟩
  · intro S d v e h
    unfold insert_row at h
    split at h
    · exact absurd h (by simp)
    split at h
    · injection h with h1
      exact h1.symm
    dsimp only at h
    split at h
    · injection h with h1
      exact h1.symm
    split at h
    · exact absurd h (by simp)
    try dsimp only at h
    split at h
    · exact absurd h (by simp)
    · exact absurd h (by simp)
  · intro Z setLenOk mapOk l l' e h
    unfold allocate_new_page at h
    split at h
    · injection h with h1 h2
      subst h1
      exact ⟨h2.symm, rfl, rfl, rfl, fun _ => rfl⟩
    rename_i hslo
    split at h
    · rename_i pg hpg
      split at h
      · rename_i hmap
        injection h with h1 h2
        subst h1
        refine ⟨h2.symm, rfl, rfl, rfl, fun hc => ?_⟩
        simp at hslo
        rw [hslo] at hc
        exact absurd hc (by simp)
      · exact absurd h (by simp)
    · exact absurd h (by simp)
  · intro S Z l v l' e h
    unfold DataLedgerStore.insert at h
    simp only [total_pages] at h
    by_cases h1 : l.header.page_cursor ≥ l.header.num_pages
    · rw [if_pos h1] at h
      injection h with h1x h2x
      exact Or.inl h1x.symm
    rw [if_neg h1] at h
    cases hpg : l.pages[l.header.page_cursor]? with
    | none => rw [hpg] at h; exact absurd h (by simp)
    | some pg =>
    rw [hpg] at h
    try dsimp only at h
    cases hins : insert_row S pg v with
    | ok pr =>
      obtain ⟨pg2, rn⟩ := pr
      rw [hins] at h
      try dsimp only at h
      exact absurd h (by simp)
    | panic =>
      rw [hins] at h
      exact absurd h (by simp)
    | err pe =>
      rw [hins] at h
      try dsimp only at h
      cases pe with
      | NoSpace =>
        try dsimp only at h
        by_cases hZ : 16 ≤ Z
        · rw [allocate_new_page_io_ok Z l hZ] at h
          simp only [LedgerHeader.inc_page_cursor] at h
          try dsimp only at h
          by_cases h2 : wrap32 (l.header.page_cursor + 1) ≥ wrap32 (l.header.num_pages + 1)
          · rw [if_pos h2] at h
            injection h with h1x h2x
            right
            rw [← h1x]
            exact ⟨rfl, rfl⟩
          rw [if_neg h2] at h
          cases hpg2 : ((resizePages Z l.pages (l.header.num_pages + 1)).set
              l.header.num_pages (newPageData Z))[wrap32 (l.header.page_cursor + 1)]? with
          | none => rw [hpg2] at h; exact absurd h (by simp)
          | some pg2 =>
          rw [hpg2] at h
          try dsimp only at h
          cases hins2 : insert_row S pg2 v with
          | ok pr2 =>
            obtain ⟨pg3, rn2⟩ := pr2
            rw [hins2] at h
            try dsimp only at h
            exact absurd h (by simp)
          | panic =>
            rw [hins2] at h
            exact absurd h (by simp)
          | err e2 =>
            rw [hins2] at h
            try dsimp only at h
            injection h with h1x h2x
            right
            rw [← h1x]
            exact ⟨rfl, rfl⟩
        · rw [allocate_new_page_io_panic Z l (by omega)] at h
          exact absurd h (by simp)
      | Error => injection h with h1x h2x; exact Or.inl h1x.symm
      | RkyvError => injection h with h1x h2x; exact Or.inl h1x.symm
      | PageIdOutOfBounds => injection h with h1x h2x; exact Or.inl h1x.symm
      | RowIdOutOfBounds => injection h with h1x h2x; exact Or.inl h1x.symm
      | RowNotFound => injection h with h1x h2x; exact Or.inl h1x.symm

/-- Witness for C4 amended (part on `allocate_new_page`): the concrete
failed `set_len` on a fresh one-page ledger. -/
theorem C4_witness :
    DsError.ioErr = DsError.ioErr ∧
    (Ledger.mk ⟨2, 0, 0⟩ [newPageData 22]).header.num_pages =
      wrap32 ((Ledger.mk ⟨1, 0, 0⟩ [newPageData 22]).header.num_pages + 1) ∧
    (Ledger.mk ⟨2, 0, 0⟩ [newPageData 22]).header.page_cursor =
      (Ledger.mk ⟨1, 0, 0⟩ [newPageData 22]).header.page_cursor ∧
    (Ledger.mk ⟨2, 0, 0⟩ [newPageData 22]).header.rows_per_page =
      (Ledger.mk ⟨1, 0, 0⟩ [newPageData 22]).header.rows_per_page ∧
    (false = false → (Ledger.mk ⟨2, 0, 0⟩ [newPageData 22]).pages =
      (Ledger.mk ⟨1, 0, 0⟩ [newPageData 22]).pages) :=
  C4_error_state_amended.2.1 22 false true (Ledger.mk ⟨1, 0, 0⟩ [newPageData 22])
    (Ledger.mk ⟨2, 0, 0⟩ [newPageData 22]) .ioErr (by decide)

/-! ### The fan-out constant -/

theorem max_rows_eq (S Z : Nat) (hZ : 16 ≤ Z) (hU : Z < U32) :
    max_rows_per_page S Z = (Z - 16) / (S + 4) := by
  unfold max_rows_per_page PAGE_HEADER_SZ
  rw [wrap32_eq _ hU, sub32_eq _ _ (by omega) hU]

theorem max_rows_pos (S Z : Nat) (hZM : 16 + (S + 4) ≤ Z) (hU : Z < U32) :
    1 ≤ max_rows_per_page S Z := by
  rw [max_rows_eq S Z (by omega) hU]
  rw [Nat.le_div_iff_mul_le (by omega)]
  omega

theorem max_rows_fit (S Z : Nat) (hZ : 16 ≤ Z) (hU : Z < U32) :
    16 + max_rows_per_page S Z * (S + 4) ≤ Z := by
  rw [max_rows_eq S Z hZ hU]
  have h1 := Nat.div_mul_le_self (Z - 16) (S + 4)
  omega

theorem max_rows_full (S Z : Nat) (hZ : 16 ≤ Z) (hU : Z < U32) :
    Z < 16 + (max_rows_per_page S Z + 1) * (S + 4) := by
  rw [max_rows_eq S Z hZ hU]
  have h1 := Nat.div_add_mod (Z - 16) (S + 4)
  have h2 : (Z - 16) % (S + 4) < S + 4 := Nat.mod_lt _ (by omega)
  have h3 : ((Z - 16) / (S + 4) + 1) * (S + 4)
      = (S + 4) * ((Z - 16) / (S + 4)) + (S + 4) := by ring
  omega

theorem max_rows_lt_U32 (S Z : Nat) : max_rows_per_page S Z < U32 := by
  unfold max_rows_per_page
  exact Nat.lt_of_le_of_lt (Nat.div_le_self _ _) (sub32_lt _ _)

/-! ### Chunks of the inserted record list -/

theorem chunk_length (M : Nat) (vs : List (List Nat)) (i : Nat) :
    (chunk M vs i).length = min M (vs.length - i * M) := by
  simp [chunk]

theorem chunk_append_of_le (M : Nat) (vs : List (List Nat)) (v : List Nat) (i : Nat)
    (h : i * M + M ≤ vs.length) :
    chunk M (vs ++ [v]) i = chunk M vs i := by
  unfold chunk
  rw [List.drop_append_eq_append_drop]
  have h0 : i * M - vs.length = 0 := by omega
  rw [h0]
  simp only [List.drop_zero]
  rw [List.take_append_eq_append_take]
  have h1 : (List.drop (i * M) vs).length = vs.length - i * M := by simp
  rw [h1]
  have h2 : M - (vs.length - i * M) = 0 := by omega
  rw [h2]
  simp

theorem chunk_append_tail (M : Nat) (vs : List (List Nat)) (v : List Nat) (i : Nat)
    (hlo : i * M ≤ vs.length) (hhi : vs.length < i * M + M) :
    chunk M (vs ++ [v]) i = chunk M vs i ++ [v] := by
  unfold chunk
  rw [List.drop_append_eq_append_drop]
  have h0 : i * M - vs.length = 0 := by omega
  rw [h0]
  simp only [List.drop_zero]
  rw [List.take_append_eq_append_take]
  have h1 : (List.drop (i * M) vs).length = vs.length - i * M := by simp
  rw [List.take_of_length_le (by rw [h1]; omega), h1,
    List.take_of_length_le (by simp; omega)]

theorem chunk_append_new (M : Nat) (vs : List (List Nat)) (v : List Nat) (i : Nat)
    (hM : 1 ≤ M) (heq : vs.length = i * M) :
    chunk M (vs ++ [v]) i = [v] := by
  unfold chunk
  rw [List.drop_append_eq_append_drop, List.drop_of_length_le (by omega)]
  simp only [List.nil_append]
  have h0 : i * M - vs.length = 0 := by omega
  rw [h0]
  simp only [List.drop_zero]
  exact List.take_of_length_le (by simp; omega)

theorem chunk_getD (M : Nat) (vs : List (List Nat)) (i j : Nat) (hj : j < M)
    (hin : i * M + j < vs.length) :
    (chunk M vs i).getD j [] = vs.getD (i * M + j) [] := by
  unfold chunk
  rw [List.getD_eq_getElem _ _ (by simp; omega), List.getD_eq_getElem _ _ hin]
  rw [List.getElem_take, List.getElem_drop]

/-! ### The ledger after a sequence of inserts -/

theorem LedgerRep_openFresh (S Z : Nat) (hZ : 16 ≤ Z) (hU : Z < U32) :
    LedgerRep S Z [] (Ledger.mk ⟨1, 0, 0⟩ [newPageData Z]) := by
  refine ⟨rfl, rfl, by simp, by simp, by simp, by simp, ?_⟩
  intro i hi
  simp only [List.length_singleton] at hi
  have hi0 : i = 0 := by omega
  subst hi0
  have hc : chunk (max_rows_per_page S Z) [] 0 = [] := by simp [chunk]
  rw [hc]
  exact PageRep_new S Z hZ hU

theorem LedgerRep_insert (S Z : Nat) (vs : List (List Nat)) (l : Ledger) (v : List Nat)
    (hZM : 16 + (S + 4) ≤ Z) (hU : Z + 4 < U32) (hNU : vs.length + 1 < U32)
    (rep : LedgerRep S Z vs l) (hv : v.length = S) :
    ∃ l', DataLedgerStore.insert S Z true true l v = .ok l' vs.length ∧
      LedgerRep S Z (vs ++ [v]) l' := by
  obtain ⟨hnp, hpc, hpos, hlo, hhi, htail, hpages⟩ := rep
  have hZ : (16 : Nat) ≤ Z := by omega
  have hZU : Z < U32 := by omega
  have hM1 : 1 ≤ max_rows_per_page S Z := max_rows_pos S Z hZM hZU
  have hMU : max_rows_per_page S Z < U32 := max_rows_lt_U32 S Z
  set M := max_rows_per_page S Z with hMdef
  set P := l.pages.length with hPdef
  set N := vs.length with hNdef
  have htlt : P - 1 < P := by omega
  have htrep := hpages (P - 1) htlt
  have hPM : (P - 1) * M + M = P * M := by
    have h1 : P - 1 + 1 = P := by omega
    calc (P - 1) * M + M = (P - 1 + 1) * M := by ring
      _ = P * M := by rw [h1]
  have htlen : (chunk M vs (P - 1)).length = N - (P - 1) * M := by
    rw [chunk_length]
    omega
  have hfit : 16 + M * (S + 4) ≤ Z := max_rows_fit S Z hZ hZU
  unfold DataLedgerStore.insert
  simp only [total_pages]
  rw [hpc, hnp, if_neg (by omega)]
  have hq : l.pages[P - 1]? = some (l.pages.get ⟨P - 1, htlt⟩) := by
    rw [List.getElem?_eq_getElem htlt]
    rfl
  rw [hq]
  try dsimp only
  by_cases hcase : N < P * M
  · -- room on the tail page
    obtain ⟨pg', hinsOk, hrep'⟩ := PageRep_insert S Z (chunk M vs (P - 1))
      (l.pages.get ⟨P - 1, htlt⟩) v hU htrep hv (by
        rw [htlen]
        unfold PAGE_HEADER_SZ
        have h2 : (N - (P - 1) * M + 1) * (S + 4) ≤ M * (S + 4) :=
          Nat.mul_le_mul_right _ (by omega)
        omega)
    rw [htlen] at hinsOk
    rw [hinsOk]
    try dsimp only
    have hrid : RowQuery.to_row_id S Z (P - 1) (N - (P - 1) * M) = N := by
      unfold RowQuery.to_row_id
      rw [← hMdef, wrap32_eq _ hMU, wrap32_eq _ (by omega : (P - 1) * M < U32),
        wrap32_eq _ (by omega : (P - 1) * M + (N - (P - 1) * M) < U32)]
      omega
    rw [hrid]
    refine ⟨_, rfl, ?_, ?_, ?_, ?_, ?_, ?_, ?_⟩
    · simpa using hnp
    · simpa using hpc
    · simpa using hpos
    · simp only [List.length_set, List.length_append, List.length_singleton, ← hMdef, ← hPdef, ← hNdef]
      omega
    · simp only [List.length_set, List.length_append, List.length_singleton, ← hMdef, ← hPdef, ← hNdef]
      omega
    · simp only [List.length_set, List.length_append, List.length_singleton, ← hMdef, ← hPdef, ← hNdef]
      omega
    · intro i hi
      simp only [← hMdef]
      have hi2 : i < P := by simpa using hi
      by_cases hiP : i = P - 1
      · subst hiP
        have hget : (l.pages.set (P - 1) pg').get ⟨P - 1, hi⟩ = pg' := by
          simp only [List.get_eq_getElem]
          exact List.getElem_set_self hi
        rw [hget, chunk_append_tail M vs v (P - 1) (by omega) (by omega)]
        exact hrep'
      · have hget : (l.pages.set (P - 1) pg').get ⟨i, hi⟩ = l.pages.get ⟨i, hi2⟩ := by
          simp only [List.get_eq_getElem]
          exact List.getElem_set_ne (by omega) hi
        rw [hget, chunk_append_of_le M vs v i (by
          have h3 : (i + 1) * M ≤ (P - 1) * M := Nat.mul_le_mul_right _ (by omega)
          have h4 : (i + 1) * M = i * M + M := by ring
          omega)]
        exact hpages i hi2
  · -- the tail page is full: N = P * M
    have hNeq : N = P * M := by omega
    have hNS : insert_row S (l.pages.get ⟨P - 1, htlt⟩) v = .err .NoSpace := by
      apply PageRep_full S Z _ _ v hU htrep
      rw [htlen]
      unfold PAGE_HEADER_SZ
      have h2 := max_rows_full S Z hZ hZU
      rw [← hMdef] at h2
      have h3 : N - (P - 1) * M = M := by omega
      rw [h3]
      omega
    rw [hNS]
    try dsimp only
    rw [allocate_new_page_io_ok Z l hZ]
    try dsimp only
    simp only [LedgerHeader.inc_page_cursor, total_pages]
    try dsimp only
    have hPU : P + 1 < U32 := by
      have h5 : P ≤ P * M := Nat.le_mul_of_pos_right P (by omega)
      omega
    have hpc1 : wrap32 (l.header.page_cursor + 1) = P := by
      rw [hpc]
      have h6 : P - 1 + 1 = P := by omega
      rw [h6, wrap32_eq _ (by omega)]
    have hnp1 : wrap32 (l.header.num_pages + 1) = P + 1 := by
      rw [hnp, wrap32_eq _ (by omega)]
    rw [hpc1, hnp1, hnp, if_neg (by omega)]
    have hpages2 : (resizePages Z l.pages (P + 1)).set P (newPageData Z)
        = l.pages ++ [newPageData Z] := by
      unfold resizePages
      rw [List.take_of_length_le (by omega)]
      have h7 : P + 1 - l.pages.length = 1 := by omega
      rw [h7]
      rw [List.set_append, if_neg (by omega)]
      have h8 : P - l.pages.length = 0 := by omega
      rw [h8]
      rfl
    rw [hpages2]
    have hq2 : (l.pages ++ [newPageData Z])[P]? = some (newPageData Z) := by
      rw [List.getElem?_append_right (by omega)]
      have h9 : P - l.pages.length = 0 := by omega
      rw [h9]
      rfl
    rw [hq2]
    try dsimp only
    obtain ⟨pg2', hins2, hrep2⟩ := PageRep_insert S Z [] (newPageData Z) v hU
      (PageRep_new S Z hZ hZU) hv (by
        unfold PAGE_HEADER_SZ
        simp only [List.length_nil]
        omega)
    simp only [List.length_nil, List.nil_append] at hins2 hrep2
    rw [hins2]
    try dsimp only
    have hset2 : (l.pages ++ [newPageData Z]).set P pg2' = l.pages ++ [pg2'] := by
      rw [List.set_append, if_neg (by omega)]
      have h10 : P - l.pages.length = 0 := by omega
      rw [h10]
      rfl
    rw [hset2]
    have hridB : RowQuery.to_row_id S Z P 0 = N := by
      unfold RowQuery.to_row_id
      rw [← hMdef, wrap32_eq _ hMU, wrap32_eq _ (by omega : P * M < U32)]
      rw [Nat.add_zero, wrap32_eq _ (by omega)]
      omega
    rw [hridB]
    refine ⟨_, rfl, ?_, ?_, ?_, ?_, ?_, ?_, ?_⟩
    · simp
    · simp
    · simp
    · simp only [List.length_append, List.length_singleton, ← hMdef, ← hPdef, ← hNdef]
      have h11 : (P + 1 - 1) * M = P * M := by
        rw [Nat.add_sub_cancel]
      omega
    · simp only [List.length_append, List.length_singleton, ← hMdef, ← hPdef, ← hNdef]
      have h12 : (P + 1) * M = P * M + M := by ring
      omega
    · simp only [List.length_append, List.length_singleton, ← hMdef, ← hPdef, ← hNdef]
      have h11 : (P + 1 - 1) * M = P * M := by
        rw [Nat.add_sub_cancel]
      omega
    · intro i hi
      simp only [← hMdef]
      have hi2 : i < P + 1 := by simpa using hi
      by_cases hiP : i = P
      · subst hiP
        have hget : ((l.pages ++ [pg2']).get ⟨P, hi⟩) = pg2' := by
          simp only [List.get_eq_getElem]
          rw [List.getElem_append_right (by omega)]
          have h13 : P - l.pages.length = 0 := by omega
          simp [h13]
        rw [hget, chunk_append_new M vs v P (by omega) (by omega)]
        exact hrep2
      · have hiP2 : i < P := by omega
        have hget : ((l.pages ++ [pg2']).get ⟨i, hi⟩) = l.pages.get ⟨i, hiP2⟩ := by
          simp only [List.get_eq_getElem]
          exact List.getElem_append_left _
        rw [hget, chunk_append_of_le M vs v i (by
          have h14 : (i + 1) * M ≤ P * M := Nat.mul_le_mul_right _ (by omega)
          have h15 : (i + 1) * M = i * M + M := by ring
          omega)]
        exact hpages i hiP2

theorem from_row_id_eq (S Z rid : Nat) (hM1 : 1 ≤ max_rows_per_page S Z) :
    RowQuery.from_row_id S Z rid =
      some (rid / max_rows_per_page S Z, rid % max_rows_per_page S Z) := by
  have hMU : max_rows_per_page S Z < U32 := max_rows_lt_U32 S Z
  unfold RowQuery.from_row_id
  dsimp only
  rw [wrap32_eq _ hMU, if_neg (by omega)]

theorem insertAll_rep (S Z : Nat) (vs : List (List Nat)) :
    ∀ (pre : List (List Nat)) (l : Ledger),
    16 + (S + 4) ≤ Z → Z + 4 < U32 → pre.length + vs.length < U32 →
    LedgerRep S Z pre l → (∀ v ∈ vs, v.length = S) →
    ∃ l', insertAll S Z l vs = some (l', List.range' pre.length vs.length) ∧
      LedgerRep S Z (pre ++ vs) l' := by
  induction vs with
  | nil =>
    intro pre l hZM hU hNU rep hv
    exact ⟨l, rfl, by simpa using rep⟩
  | cons v vs ih =>
    intro pre l hZM hU hNU rep hv
    obtain ⟨l1, hins, rep1⟩ := LedgerRep_insert S Z pre l v hZM hU
      (by simp only [List.length_cons] at hNU; omega) rep (hv v (by simp))
    obtain ⟨l2, hall, rep2⟩ := ih (pre ++ [v]) l1 hZM hU
      (by simp only [List.length_cons] at hNU
          simp only [List.length_append, List.length_singleton]
          omega)
      rep1 (fun w hw => hv w (by simp [hw]))
    refine ⟨l2, ?_, by simpa [List.append_assoc] using rep2⟩
    unfold insertAll
    rw [hins]
    try dsimp only
    rw [hall]
    simp only [List.length_append, List.length_singleton, List.length_cons, List.length_nil]
    rw [List.range'_succ]

theorem LedgerRep_access (S Z : Nat) (vs : List (List Nat)) (l : Ledger)
    (hZM : 16 + (S + 4) ≤ Z) (hU : Z + 4 < U32)
    (rep : LedgerRep S Z vs l) (i : Nat) (hi : i < vs.length) :
    DataLedgerStore.access_row S Z l i = .ok (some (vs.getD i [])) := by
  obtain ⟨hnp, hpc, hpos, hlo, hhi, htail, hpages⟩ := rep
  have hZ : (16 : Nat) ≤ Z := by omega
  have hZU : Z < U32 := by omega
  have hM1 : 1 ≤ max_rows_per_page S Z := max_rows_pos S Z hZM hZU
  have hpid : i / max_rows_per_page S Z < l.pages.length := by
    rw [Nat.div_lt_iff_lt_mul (by omega)]
    omega
  have hmod : i % max_rows_per_page S Z < max_rows_per_page S Z :=
    Nat.mod_lt _ (by omega)
  have hdm : max_rows_per_page S Z * (i / max_rows_per_page S Z)
      + i % max_rows_per_page S Z = i := Nat.div_add_mod i _
  have hcomm : max_rows_per_page S Z * (i / max_rows_per_page S Z)
      = (i / max_rows_per_page S Z) * max_rows_per_page S Z := Nat.mul_comm _ _
  unfold DataLedgerStore.access_row
  rw [from_row_id_eq S Z i hM1]
  try dsimp only
  unfold access_page
  simp only [total_pages, hnp]
  rw [if_neg (by omega)]
  have hq : l.pages[i / max_rows_per_page S Z]? =
      some (l.pages.get ⟨i / max_rows_per_page S Z, hpid⟩) := by
    rw [List.getElem?_eq_getElem hpid]
    rfl
  rw [hq]
  try dsimp only
  have hacc := PageRep_access S Z (chunk (max_rows_per_page S Z) vs
      (i / max_rows_per_page S Z))
    (l.pages.get ⟨i / max_rows_per_page S Z, hpid⟩) hU
    (hpages (i / max_rows_per_page S Z) hpid) (i % max_rows_per_page S Z)
    (by rw [chunk_length]; omega)
  rw [hacc, chunk_getD _ vs _ _ hmod (by omega)]
  have hieq : i / max_rows_per_page S Z * max_rows_per_page S Z
      + i % max_rows_per_page S Z = i := by omega
  rw [hieq]

theorem LedgerRep_num_rows (S Z : Nat) (vs : List (List Nat)) (l : Ledger)
    (hZM : 16 + (S + 4) ≤ Z) (hU : Z + 4 < U32) (hNU : vs.length < U32)
    (rep : LedgerRep S Z vs l) :
    DataLedgerStore.num_rows S Z l = .ok vs.length := by
  obtain ⟨hnp, hpc, hpos, hlo, hhi, htail, hpages⟩ := rep
  have hZ : (16 : Nat) ≤ Z := by omega
  have hZU : Z < U32 := by omega
  have hM1 : 1 ≤ max_rows_per_page S Z := max_rows_pos S Z hZM hZU
  have hMU : max_rows_per_page S Z < U32 := max_rows_lt_U32 S Z
  have hP1 : l.pages.length - 1 ≤ (l.pages.length - 1) * max_rows_per_page S Z :=
    Nat.le_mul_of_pos_right _ (by omega)
  have hPU : l.pages.length < U32 := by
    rcases htail with h | h <;> omega
  have hPM : (l.pages.length - 1) * max_rows_per_page S Z + max_rows_per_page S Z
      = l.pages.length * max_rows_per_page S Z := by
    have h1 : l.pages.length - 1 + 1 = l.pages.length := by omega
    calc (l.pages.length - 1) * max_rows_per_page S Z + max_rows_per_page S Z
        = (l.pages.length - 1 + 1) * max_rows_per_page S Z := by ring
      _ = l.pages.length * max_rows_per_page S Z := by rw [h1]
  have htlt : l.pages.length - 1 < l.pages.length := by omega
  unfold DataLedgerStore.num_rows
  try dsimp only
  simp only [hnp]
  rw [if_neg (by omega)]
  unfold access_page
  simp only [total_pages, hnp]
  rw [if_neg (by omega)]
  have hq : l.pages[l.pages.length - 1]? =
      some (l.pages.get ⟨l.pages.length - 1, htlt⟩) := by
    rw [List.getElem?_eq_getElem htlt]
    rfl
  rw [hq]
  try dsimp only
  have hsc := (hpages (l.pages.length - 1) htlt).hsc
  rw [hsc, chunk_length]
  rw [sub32_eq _ 1 (by omega) hPU, wrap32_eq _ hMU]
  have hmin : min (max_rows_per_page S Z)
      (vs.length - (l.pages.length - 1) * max_rows_per_page S Z)
      = vs.length - (l.pages.length - 1) * max_rows_per_page S Z := by omega
  have hwle : wrap32 ((l.pages.length - 1) * max_rows_per_page S Z)
      ≤ (l.pages.length - 1) * max_rows_per_page S Z := Nat.mod_le _ _
  rw [hmin, wrap32_eq _ (by omega)]
  rw [wrap32_eq _ (by omega)]
  congr 1
  omega

theorem insertRowAll_rep (S Z : Nat) (vs : List (List Nat)) :
    ∀ (pre : List (List Nat)) (d : List Nat),
    Z + 4 < U32 → PageRep S Z pre d → (∀ v ∈ vs, v.length = S) →
    16 + (pre.length + vs.length) * (S + 4) ≤ Z →
    ∃ d', insertRowAll S d vs = some (d', List.range' pre.length vs.length) ∧
      PageRep S Z (pre ++ vs) d' := by
  induction vs with
  | nil =>
    intro pre d hU rep hv hfit
    exact ⟨d, rfl, by simpa using rep⟩
  | cons v vs ih =>
    intro pre d hU rep hv hfit
    simp only [List.length_cons] at hfit
    obtain ⟨d1, hins, rep1⟩ := PageRep_insert S Z pre d v hU rep (hv v (by simp))
      (by
        unfold PAGE_HEADER_SZ
        have h1 : (pre.length + 1) * (S + 4) ≤ (pre.length + (vs.length + 1)) * (S + 4) :=
          Nat.mul_le_mul_right _ (by omega)
        omega)
    obtain ⟨d2, hall, rep2⟩ := ih (pre ++ [v]) d1 hU rep1
      (fun w hw => hv w (by simp [hw]))
      (by
        simp only [List.length_append, List.length_singleton]
        have h2 : pre.length + 1 + vs.length = pre.length + (vs.length + 1) := by omega
        rw [h2]
        exact hfit)
    refine ⟨d2, ?_, by simpa [List.append_assoc] using rep2⟩
    unfold insertRowAll
    rw [hins]
    try dsimp only
    rw [hall]
    simp only [List.length_append, List.length_singleton, List.length_cons, List.length_nil]
    rw [List.range'_succ]

/-! ## Claim C1 -/

/-- C1: on a freshly opened ledger (page size `Z` in `u32` range holding
at least one record per page, fewer records than `2^32` so the `u32` row
ids cannot wrap), a sequence of `N` successful `insert` calls returns the
row ids `0, 1, ..., N - 1` in insertion order, `num_rows()` then returns
`N`, and for every `rid < N`, `access_row(rid)` returns `Some x` where
`x` is the byte-for-byte value passed to the `rid`-th insert. -/
theorem C1_insert_sequence (S Z : Nat) (vs : List (List Nat)) (l0 : Ledger)
    (hZM : 16 + (S + 4) ≤ Z) (hU : Z + 4 < U32) (hNU : vs.length < U32)
    (hopen : DataLedgerStore.openFresh Z = some l0)
    (hv : ∀ v ∈ vs, v.length = S) :
    ∃ l', insertAll S Z l0 vs = some (l', List.range vs.length) ∧
      DataLedgerStore.num_rows S Z l' = .ok vs.length ∧
      ∀ i, i < vs.length →
        DataLedgerStore.access_row S Z l' i = .ok (some (vs.getD i [])) := by
  have hZ : (16 : Nat) ≤ Z := by omega
  have hl0 : l0 = Ledger.mk ⟨1, 0, 0⟩ [newPageData Z] := by
    unfold DataLedgerStore.openFresh at hopen
    rw [SlottedPage_new_ok Z hZ] at hopen
    injection hopen with h
    exact h.symm
  subst hl0
  obtain ⟨l', hall, rep⟩ := insertAll_rep S Z vs []
    (Ledger.mk ⟨1, 0, 0⟩ [newPageData Z]) hZM hU (by simpa using hNU)
    (LedgerRep_openFresh S Z hZ (by omega)) hv
  have rep' : LedgerRep S Z vs l' := by simpa using rep
  refine ⟨l', ?_, ?_, ?_⟩
  · rw [hall, List.range_eq_range']
    rfl
  · exact LedgerRep_num_rows S Z vs l' hZM hU hNU rep'
  · intro i hi
    exact LedgerRep_access S Z vs l' hZM hU rep' i hi

/-- Witness for C1: two records of size `S = 2` into a fresh ledger with
`PAGE_SZ = 22` (one record per page, so the sequence crosses a page
boundary): ids `[0, 1]`, `num_rows = 2`, both reads give back the
records. -/
theorem C1_witness :
    (∀ v ∈ [[1, 2], [3, 4]], List.length v = 2) ∧
    ∃ l', insertAll 2 22 (Ledger.mk ⟨1, 0, 0⟩ [newPageData 22]) [[1, 2], [3, 4]] =
        some (l', List.range 2) ∧
      DataLedgerStore.num_rows 2 22 l' = .ok 2 ∧
      ∀ i, i < 2 → DataLedgerStore.access_row 2 22 l' i =
        .ok (some ([[1, 2], [3, 4]].getD i [])) :=
  ⟨by decide, C1_insert_sequence 2 22 [[1, 2], [3, 4]]
    (Ledger.mk ⟨1, 0, 0⟩ [newPageData 22]) (by decide) (by decide) (by decide)
    rfl (by decide)⟩

/-! ## Claim C3 -/

/-- C3: a fresh page accepts exactly `max_rows_per_page =
⌊(PAGE_SZ - 16) / (S + 4)⌋` `insert_row` calls (returning the slots `0,
..., max_rows_per_page - 1`) and then answers `NoSpace` to any further
record; consequently, on a fresh ledger, the insert carrying row id
`max_rows_per_page - 1` still decodes to page `0`, slot
`max_rows_per_page - 1`, the next insert's row id decodes to page `1`,
slot `0`, and `num_pages` becomes `2`. -/
theorem C3_page_capacity_rollover (S Z : Nat) (ws vs : List (List Nat)) (l0 : Ledger)
    (hZM : 16 + (S + 4) ≤ Z) (hU : Z + 4 < U32)
    (hopen : DataLedgerStore.openFresh Z = some l0)
    (hwlen : ws.length = max_rows_per_page S Z) (hw : ∀ v ∈ ws, v.length = S)
    (hvlen : vs.length = max_rows_per_page S Z + 1) (hv : ∀ v ∈ vs, v.length = S) :
    (∃ d', insertRowAll S (newPageData Z) ws =
        some (d', List.range (max_rows_per_page S Z)) ∧
      ∀ w, insert_row S d' w = .err .NoSpace) ∧
    (∃ l', insertAll S Z l0 vs =
        some (l', List.range (max_rows_per_page S Z + 1)) ∧
      l'.header.num_pages = 2 ∧
      RowQuery.from_row_id S Z (max_rows_per_page S Z - 1) =
        some (0, max_rows_per_page S Z - 1) ∧
      RowQuery.from_row_id S Z (max_rows_per_page S Z) = some (1, 0)) := by
  have hZ : (16 : Nat) ≤ Z := by omega
  have hZU : Z < U32 := by omega
  have hM1 : 1 ≤ max_rows_per_page S Z := max_rows_pos S Z hZM hZU
  have hMU : max_rows_per_page S Z < U32 := max_rows_lt_U32 S Z
  have hfit := max_rows_fit S Z hZ hZU
  have hMZ : max_rows_per_page S Z ≤ Z - 16 := by
    rw [max_rows_eq S Z hZ hZU]
    exact Nat.div_le_self _ _
  have hfull := max_rows_full S Z hZ hZU
  constructor
  · obtain ⟨d', hall, rep'⟩ := insertRowAll_rep S Z ws [] (newPageData Z) hU
      (PageRep_new S Z hZ hZU) hw
      (by
        simp only [List.length_nil, Nat.zero_add, hwlen]
        exact hfit)
    refine ⟨d', ?_, ?_⟩
    · rw [hall, ← hwlen, List.range_eq_range']
      rfl
    · intro w
      apply PageRep_full S Z ([] ++ ws) d' w hU rep'
      unfold PAGE_HEADER_SZ
      simp only [List.nil_append, hwlen]
      exact hfull
  · have hl0 : l0 = Ledger.mk ⟨1, 0, 0⟩ [newPageData Z] := by
      unfold DataLedgerStore.openFresh at hopen
      rw [SlottedPage_new_ok Z hZ] at hopen
      injection hopen with h
      exact h.symm
    subst hl0
    obtain ⟨l', hall, rep⟩ := insertAll_rep S Z vs []
      (Ledger.mk ⟨1, 0, 0⟩ [newPageData Z]) hZM hU
      (by simp only [List.length_nil, Nat.zero_add, hvlen]; omega)
      (LedgerRep_openFresh S Z hZ (by omega)) hv
    have rep' : LedgerRep S Z vs l' := by simpa using rep
    obtain ⟨hnp, hpc, hpos, hlo, hhi, htail, hpages⟩ := rep'
    rw [hvlen] at hhi htail
    have hP2 : l'.pages.length = 2 := by
      have h2 : 2 ≤ l'.pages.length := by
        by_contra hlt
        push_neg at hlt
        have hm : l'.pages.length * max_rows_per_page S Z
            ≤ 1 * max_rows_per_page S Z :=
          Nat.mul_le_mul_right _ (by omega)
        rw [Nat.one_mul] at hm
        omega
      have h3 : l'.pages.length ≤ 2 := by
        by_contra hgt
        push_neg at hgt
        have hm : 2 * max_rows_per_page S Z
            ≤ (l'.pages.length - 1) * max_rows_per_page S Z :=
          Nat.mul_le_mul_right _ (by omega)
        rcases htail with h | h
        · omega
        · omega
      omega
    refine ⟨l', ?_, ?_, ?_, ?_⟩
    · rw [hall, ← hvlen, List.range_eq_range']
      rfl
    · rw [hnp, hP2]
    · rw [from_row_id_eq S Z _ hM1, Nat.div_eq_of_lt (by omega),
        Nat.mod_eq_of_lt (by omega)]
    · rw [from_row_id_eq S Z _ hM1, Nat.div_self (by omega), Nat.mod_self]

/-- Witness for C3: `S = 2`, `PAGE_SZ = 22`, so `max_rows_per_page = 1`:
one insert fills the fresh page, a second page-level insert reports
`NoSpace`, and at the store level the second insert rolls over to page 1,
slot 0, with `num_pages = 2`. -/
theorem C3_witness :
    ([[5, 6]].length = max_rows_per_page 2 22 ∧
      [[1, 2], [3, 4]].length = max_rows_per_page 2 22 + 1) ∧
    ((∃ d', insertRowAll 2 (newPageData 22) [[5, 6]] =
        some (d', List.range (max_rows_per_page 2 22)) ∧
      ∀ w, insert_row 2 d' w = .err .NoSpace) ∧
    (∃ l', insertAll 2 22 (Ledger.mk ⟨1, 0, 0⟩ [newPageData 22]) [[1, 2], [3, 4]] =
        some (l', List.range (max_rows_per_page 2 22 + 1)) ∧
      l'.header.num_pages = 2 ∧
      RowQuery.from_row_id 2 22 (max_rows_per_page 2 22 - 1) =
        some (0, max_rows_per_page 2 22 - 1) ∧
      RowQuery.from_row_id 2 22 (max_rows_per_page 2 22) = some (1, 0))) :=
  ⟨⟨by decide, by decide⟩, C3_page_capacity_rollover 2 22 [[5, 6]] [[1, 2], [3, 4]]
    (Ledger.mk ⟨1, 0, 0⟩ [newPageData 22]) (by decide) (by decide) rfl
    (by decide) (by decide) (by decide) (by decide)⟩

end LedgerRs
